import Mathlib

/-!
Shallow embedding of the simple-orderbook-cpp matching core.

The C++ source (src/Types.h, Order.h/.cpp, OrderModify.h/.cpp, Trade.h,
OrderBook.h/.cpp) is translated into pure Lean definitions:

* `Price = std::int32_t` is modelled as `Int` (prices are only compared,
  never subject to arithmetic, so no wraparound can occur);
* `Quantity = std::uint32_t` is modelled as `Nat`; the only unguarded
  unsigned arithmetic in the source is inside `OrderBook::UpdateLevelData`,
  which is therefore modelled with an explicit `% 2^32`;
* `OrderId = std::uint64_t` is modelled as `Nat` (ids are only compared);
* `throw std::logic_error` in `Order::Fill` becomes `Except String`;
* the `std::map` side maps become association lists sorted by key
  (descending for `bids_`, ascending for `asks_`, mirroring
  `std::greater` / `std::less`); the `unordered_map`s `orders_` and
  `data_` become association lists with unique keys;
* the mutex, the condition variable and the background pruning thread are
  erased: every public operation runs under the single book lock in the
  source, so the sequential state-passing semantics below is exactly the
  per-operation semantics of the C++;
* the two `while` loops of `OrderBook::MatchOrders` are written with an
  explicit fuel argument (`bookSize s + 1` steps, which is shown to be
  sufficient: every inner iteration pops at least one order).

In C++ the `Order` objects are shared (`shared_ptr`) between the level
queues and the `orders_` index.  Here the level queues own the order
values (they are the only place the mutable remaining quantity is ever
read or written by the source), and `orders_` stores the order value as
of insertion time; the source reads only the immutable fields (id, type,
side, price) through `orders_`, so this copy-based model is
observationally faithful.
-/

inductive OrderType where
  | GoodTillCancel
  | FillAndKill
  | FillOrKill
  | GoodForDay
  | Market
deriving DecidableEq, Repr

inductive Side where
  | Buy
  | Sell
deriving DecidableEq, Repr

/-- src/Order.h: identity plus fill accounting.  Field names follow the
source (`orderType_`, `orderId_`, `side_`, `price_`, `initialQuantity_`,
`remainingQuantity_`). -/
structure Order where
  orderType_ : OrderType
  orderId_ : Nat
  side_ : Side
  price_ : Int
  initialQuantity_ : Nat
  remainingQuantity_ : Nat
deriving DecidableEq, Repr

/-- src/Order.cpp, `Order::Fill`: throws `std::logic_error` when asked to
fill more than the remaining quantity, otherwise decrements the remaining
quantity. -/
def Order.Fill (o : Order) (quantity : Nat) : Except String Order :=
  if quantity > o.remainingQuantity_ then
    .error "cannot be filled for more than its remaining quantity"
  else
    .ok { o with remainingQuantity_ := o.remainingQuantity_ - quantity }

/-- src/Order.h, `Order::isFilled`. -/
def Order.isFilled (o : Order) : Bool :=
  o.remainingQuantity_ == 0

/-- src/Order.h, `Order::GetFilledQuantity`. -/
def Order.GetFilledQuantity (o : Order) : Nat :=
  o.initialQuantity_ - o.remainingQuantity_

/-- Modelled from the spec: `Order::ToGoodTillCancel(price)` is declared in
src/Order.h and called from `OrderBook::AddOrder`, but its definition is not
among the source files.  Spec 4.1: "replaces the limit price; used
exclusively to reinterpret a Market order as a marketable limit", i.e. the
order becomes a `GoodTillCancel` limit order at the given price.  No code
path in the claims observes the rewritten order's type, only its price. -/
def Order.ToGoodTillCancel (o : Order) (price : Int) : Order :=
  { o with price_ := price, orderType_ := OrderType.GoodTillCancel }

/-- src/Trade.h, `TradeInfo`. -/
structure TradeInfo where
  orderId_ : Nat
  price_ : Int
  quantity_ : Nat
deriving DecidableEq, Repr

/-- src/Trade.h, `Trade`: a bid leg and an ask leg. -/
structure Trade where
  bidTrade_ : TradeInfo
  askTrade_ : TradeInfo
deriving DecidableEq, Repr

/-- src/OrderModify.h. -/
structure OrderModify where
  orderId_ : Nat
  side_ : Side
  price_ : Int
  quantity_ : Nat
deriving DecidableEq, Repr

/-- src/OrderModify.cpp, `OrderModify::ToOrderPointer`. -/
def OrderModify.ToOrderPointer (m : OrderModify) (type : OrderType) : Order :=
  ⟨type, m.orderId_, m.side_, m.price_, m.quantity_, m.quantity_⟩

/-- src/OrderBook.h, `OrderBook::LevelData`: per-price aggregate
(`quantity_` and `count_` are `Quantity`, i.e. `std::uint32_t`). -/
structure LevelData where
  quantity_ : Nat
  count_ : Nat
deriving DecidableEq, Repr

/-- src/OrderBook.h, `LevelData::Action`. -/
inductive LevelDataAction where
  | Add
  | Remove
  | Match
deriving DecidableEq, Repr

/-- One price level: the FIFO list of live orders at that price
(`OrderPointers = std::list<OrderPointer>` in src/Order.h). -/
abbrev Level := List Order

/-- `std::map::find`-style lookup in an association list. -/
def lookupLevel (levels : List (Int × Level)) (price : Int) : Option Level :=
  match levels with
  | [] => none
  | (q, l) :: rest => if q = price then some l else lookupLevel rest price

/-- `std::map::erase(key)`. -/
def eraseLevelKey (levels : List (Int × Level)) (price : Int) : List (Int × Level) :=
  match levels with
  | [] => []
  | (q, l) :: rest => if q = price then rest else (q, l) :: eraseLevelKey rest price

/-- Replace the value stored at a key (the key is present whenever this is
used; on a missing key it is the identity). -/
def setLevel (levels : List (Int × Level)) (price : Int) (l' : Level) : List (Int × Level) :=
  match levels with
  | [] => []
  | (q, l) :: rest => if q = price then (q, l') :: rest else (q, l) :: setLevel rest price l'

/-- `bids_[price].push_back(order)` on the descending `std::map` (keys
ordered by `std::greater<Price>`): append to the level if the price is
present, otherwise insert a fresh level at the sorted position. -/
def insertBidLevel (price : Int) (o : Order) (levels : List (Int × Level)) : List (Int × Level) :=
  match levels with
  | [] => [(price, [o])]
  | (q, l) :: rest =>
    if price = q then (q, l ++ [o]) :: rest
    else if q < price then (price, [o]) :: (q, l) :: rest
    else (q, l) :: insertBidLevel price o rest

/-- `asks_[price].push_back(order)` on the ascending `std::map`. -/
def insertAskLevel (price : Int) (o : Order) (levels : List (Int × Level)) : List (Int × Level) :=
  match levels with
  | [] => [(price, [o])]
  | (q, l) :: rest =>
    if price = q then (q, l ++ [o]) :: rest
    else if price < q then (price, [o]) :: (q, l) :: rest
    else (q, l) :: insertAskLevel price o rest

/-- `unordered_map<OrderId, OrderEntry>::find`. -/
def lookupOrders (orders : List (Nat × Order)) (orderId : Nat) : Option Order :=
  match orders with
  | [] => none
  | (i, o) :: rest => if i = orderId then some o else lookupOrders rest orderId

/-- `orders_.erase(orderId)`; keys are unique (inserts are guarded by a
`contains` check), so removing every binding equals `unordered_map::erase`. -/
def eraseOrders (orders : List (Nat × Order)) (orderId : Nat) : List (Nat × Order) :=
  orders.filter (fun e => e.1 ≠ orderId)

/-- `orders_.contains(orderId)`. -/
def containsOrderId (orders : List (Nat × Order)) (orderId : Nat) : Bool :=
  (lookupOrders orders orderId).isSome

/-- `data_` lookup (`unordered_map<Price, LevelData>`). -/
def lookupData (data : List (Int × LevelData)) (price : Int) : Option LevelData :=
  match data with
  | [] => none
  | (q, d) :: rest => if q = price then some d else lookupData rest price

/-- `data_.erase(price)`. -/
def eraseData (data : List (Int × LevelData)) (price : Int) : List (Int × LevelData) :=
  match data with
  | [] => []
  | (q, d) :: rest => if q = price then rest else (q, d) :: eraseData rest price

/-- Store a value under a key in `data_` (update in place, else append). -/
def storeData (data : List (Int × LevelData)) (price : Int) (d' : LevelData) : List (Int × LevelData) :=
  match data with
  | [] => [(price, d')]
  | (q, d) :: rest => if q = price then (q, d') :: rest else (q, d) :: storeData rest price d'

/-- src/OrderBook.h: the book state.  Fields in declaration order of the
source: the level-data index `data_`, the ascending ask map, the
descending bid map and the order index (`orders_`; see the header comment
about the copy-based model of the shared `Order` objects). -/
structure OrderBookState where
  data_ : List (Int × LevelData)
  asks_ : List (Int × Level)
  bids_ : List (Int × Level)
  orders_ : List (Nat × Order)
deriving DecidableEq, Repr

def emptyBook : OrderBookState := ⟨[], [], [], []⟩

/-- All orders stored in a side map, best level first, FIFO inside a
level. -/
def levelOrders (levels : List (Int × Level)) : List Order :=
  levels.foldr (fun e acc => e.2 ++ acc) []

/-- All orders resting on the bid side. -/
def bidOrders (s : OrderBookState) : List Order :=
  levelOrders s.bids_

/-- All orders resting on the ask side. -/
def askOrders (s : OrderBookState) : List Order :=
  levelOrders s.asks_

/-- Every live order in the book. -/
def allOrders (s : OrderBookState) : List Order :=
  bidOrders s ++ askOrders s

/-- Number of live orders resting at a given price, over both sides (used
to state the level-data claim). -/
def ordersAtPrice (s : OrderBookState) (price : Int) : Nat :=
  ((lookupLevel s.bids_ price).getD []).length + ((lookupLevel s.asks_ price).getD []).length

/-- Sum of remaining quantities of a list of orders. -/
def sumRemaining (l : List Order) : Nat :=
  (l.map Order.remainingQuantity_).sum

/-- src/OrderBook.cpp, `OrderBook::Size`. -/
def OrderBook.Size (s : OrderBookState) : Nat :=
  s.orders_.length

/-- src/OrderBook.cpp, `OrderBook::CanMatch`. -/
def OrderBook.CanMatch (s : OrderBookState) (side : Side) (price : Int) : Bool :=
  match side with
  | Side.Buy =>
    match s.asks_ with
    | [] => false
    | (bestAsk, _) :: _ => decide (price ≥ bestAsk)
  | Side.Sell =>
    match s.bids_ with
    | [] => false
    | (bestBid, _) :: _ => decide (price ≤ bestBid)

/-- src/OrderBook.cpp, `OrderBook::UpdateLevelData`.  `count_` and
`quantity_` are `std::uint32_t`, hence the explicit `% 2^32`; the
`Remove` branch adds `-1` converted to unsigned, i.e. `2^32 - 1`.  (In
the source as it stands only the `Add` action is ever invoked: the
`OnOrderCancelled` / `OnOrderMatched` hooks are defined but never
called.) -/
def OrderBook.UpdateLevelData (data : List (Int × LevelData)) (price : Int)
    (quantity : Nat) (action : LevelDataAction) : List (Int × LevelData) :=
  let d := (lookupData data price).getD ⟨0, 0⟩
  let count :=
    match action with
    | LevelDataAction.Remove => (d.count_ + (2 ^ 32 - 1)) % 2 ^ 32
    | LevelDataAction.Add => (d.count_ + 1) % 2 ^ 32
    | LevelDataAction.Match => d.count_
  let quantity' :=
    match action with
    | LevelDataAction.Remove | LevelDataAction.Match =>
      (d.quantity_ + (2 ^ 32 - quantity % 2 ^ 32)) % 2 ^ 32
    | LevelDataAction.Add => (d.quantity_ + quantity) % 2 ^ 32
  if count = 0 then eraseData data price
  else storeData data price ⟨quantity', count⟩

/-- src/OrderBook.cpp, `OrderBook::OnOrderAdded` (called from `AddOrder`). -/
def OrderBook.OnOrderAdded (data : List (Int × LevelData)) (order : Order) : List (Int × LevelData) :=
  OrderBook.UpdateLevelData data order.price_ order.initialQuantity_ LevelDataAction.Add

/-- src/OrderBook.cpp, `OrderBook::OnOrderCancelled`.  Defined in the
source but never called from any code path. -/
def OrderBook.OnOrderCancelled (data : List (Int × LevelData)) (order : Order) : List (Int × LevelData) :=
  OrderBook.UpdateLevelData data order.price_ order.remainingQuantity_ LevelDataAction.Remove

/-- src/OrderBook.cpp, `OrderBook::OnOrderMatched`.  Defined in the source
but never called from any code path. -/
def OrderBook.OnOrderMatched (data : List (Int × LevelData)) (price : Int) (quantity : Nat) : List (Int × LevelData) :=
  OrderBook.UpdateLevelData data price quantity LevelDataAction.Match

/-- The loop body of src/OrderBook.cpp `OrderBook::CanFullyFill`:
iterate `data_`, skip entries below/above the best-opposite threshold and
entries worse than the limit, and accumulate. -/
def canFullyFillLoop (side : Side) (price : Int) (threshold : Option Int) :
    Nat → List (Int × LevelData) → Bool
  | _, [] => false
  | quantity, (levelPrice, levelData) :: rest =>
    let outsideOppositeBook : Bool :=
      match threshold with
      | some t => decide ((side = Side.Buy ∧ t > levelPrice) ∨ (side = Side.Sell ∧ t < levelPrice))
      | none => false
    if outsideOppositeBook then
      canFullyFillLoop side price threshold quantity rest
    else if (side = Side.Buy ∧ levelPrice > price) ∨ (side = Side.Sell ∧ levelPrice < price) then
      canFullyFillLoop side price threshold quantity rest
    else if quantity ≤ levelData.quantity_ then true
    else canFullyFillLoop side price threshold (quantity - levelData.quantity_) rest

/-- src/OrderBook.cpp, `OrderBook::CanFullyFill`. -/
def OrderBook.CanFullyFill (s : OrderBookState) (side : Side) (price : Int) (quantity : Nat) : Bool :=
  if !OrderBook.CanMatch s side price then false
  else
    let threshold : Option Int :=
      match side with
      | Side.Buy => (s.asks_.head?).map Prod.fst
      | Side.Sell => (s.bids_.head?).map Prod.fst
    canFullyFillLoop side price threshold quantity s.data_

/-- Remove the order with the given id from the level at the given price
(the `orders.erase(orderIterator)` step of `CancelOrderInternals`; ids are
unique in the book, so filtering equals erasing the stored iterator), and
drop the level if it became empty.  A missing level would throw
(`map::at`) in the source; it is unreachable under the book invariants. -/
def removeFromLevels (levels : List (Int × Level)) (price : Int) (orderId : Nat) : List (Int × Level) :=
  match lookupLevel levels price with
  | none => levels
  | some l =>
    let l' := l.filter (fun o => o.orderId_ ≠ orderId)
    if l' = [] then eraseLevelKey levels price else setLevel levels price l'

/-- src/OrderBook.cpp, `OrderBook::CancelOrderInternals`.  (It does not
touch `data_`: the `OnOrderCancelled` hook is never invoked.) -/
def OrderBook.CancelOrderInternals (s : OrderBookState) (orderId : Nat) : OrderBookState :=
  match lookupOrders s.orders_ orderId with
  | none => s
  | some order =>
    let s1 := { s with orders_ := eraseOrders s.orders_ orderId }
    let s2 :=
      if order.side_ = Side.Sell then
        { s1 with asks_ := removeFromLevels s1.asks_ order.price_ orderId }
      else s1
    if order.side_ = Side.Buy then
      { s2 with bids_ := removeFromLevels s2.bids_ order.price_ orderId }
    else s2

/-- src/OrderBook.cpp, `OrderBook::CancelOrder` (lock erased). -/
def OrderBook.CancelOrder (s : OrderBookState) (orderId : Nat) : OrderBookState :=
  OrderBook.CancelOrderInternals s orderId

/-- src/OrderBook.cpp, `OrderBook::CancelOrders` (single lock, then the
internal helper per id). -/
def OrderBook.CancelOrders (s : OrderBookState) (orderIds : List Nat) : OrderBookState :=
  orderIds.foldl OrderBook.CancelOrderInternals s

/-- Total number of orders sitting in a side map. -/
def totalSize (levels : List (Int × Level)) : Nat :=
  (levels.map (fun e => e.2.length)).sum

/-- Total number of orders sitting in the two side maps (the termination
measure of the matching loop: every inner iteration pops at least one
order). -/
def bookSize (s : OrderBookState) : Nat :=
  totalSize s.bids_ + totalSize s.asks_

/-- The inner `while (bids.size() && asks.size())` loop of
src/OrderBook.cpp `OrderBook::MatchOrders`, at a fixed best bid price and
best ask price: fill the front orders by the minimum remaining quantity,
pop whichever filled (erasing its `orders_` entry), erase a level that
became empty, and record the trade with each side's own id and price.
The fuel argument only totalizes the loop; `bookSize s + 1` is always
sufficient. -/
def matchInner (fuel : Nat) (bidPrice askPrice : Int) (s : OrderBookState)
    (acc : List Trade) : Except String (List Trade × OrderBookState) :=
  match fuel with
  | 0 => .ok (acc, s)
  | fuel' + 1 =>
    match lookupLevel s.bids_ bidPrice, lookupLevel s.asks_ askPrice with
    | some (bid :: bidsRest), some (ask :: asksRest) =>
      let quantity := min bid.remainingQuantity_ ask.remainingQuantity_
      match bid.Fill quantity, ask.Fill quantity with
      | .error e, _ => .error e
      | .ok _, .error e => .error e
      | .ok bid', .ok ask' =>
        let newBidLevel := if bid'.isFilled then bidsRest else bid' :: bidsRest
        let orders1 := if bid'.isFilled then eraseOrders s.orders_ bid.orderId_ else s.orders_
        let newAskLevel := if ask'.isFilled then asksRest else ask' :: asksRest
        let orders2 := if ask'.isFilled then eraseOrders orders1 ask.orderId_ else orders1
        let bids' := if newBidLevel = [] then eraseLevelKey s.bids_ bidPrice
                     else setLevel s.bids_ bidPrice newBidLevel
        let asks' := if newAskLevel = [] then eraseLevelKey s.asks_ askPrice
                     else setLevel s.asks_ askPrice newAskLevel
        let t : Trade := ⟨⟨bid.orderId_, bid.price_, quantity⟩, ⟨ask.orderId_, ask.price_, quantity⟩⟩
        matchInner fuel' bidPrice askPrice
          { s with bids_ := bids', asks_ := asks', orders_ := orders2 } (acc ++ [t])
    | _, _ => .ok (acc, s)

/-- The outer `while (true)` loop of `OrderBook::MatchOrders`: stop when a
side is empty or the best bid is below the best ask, otherwise run the
inner loop at the current best levels and repeat. -/
def matchOuter (fuel : Nat) (s : OrderBookState) (acc : List Trade) :
    Except String (List Trade × OrderBookState) :=
  match fuel with
  | 0 => .ok (acc, s)
  | fuel' + 1 =>
    match s.bids_.head?, s.asks_.head? with
    | some (bidPrice, _), some (askPrice, _) =>
      if bidPrice < askPrice then .ok (acc, s)
      else
        match matchInner (bookSize s + 1) bidPrice askPrice s acc with
        | .error e => .error e
        | .ok (acc', s') => matchOuter fuel' s' acc'
    | _, _ => .ok (acc, s)

/-- The post-loop residual-FAK sweep on the bid side (src/OrderBook.cpp
lines 108-114): if the front order of the best bid level is a
`FillAndKill`, cancel it.  (`bids.front()` on an empty level would be
undefined behaviour in the source; levels are never empty.) -/
def sweepBidFAK (s : OrderBookState) : OrderBookState :=
  match s.bids_ with
  | (_, order :: _) :: _ =>
    if order.orderType_ = OrderType.FillAndKill then OrderBook.CancelOrder s order.orderId_ else s
  | _ => s

/-- The post-loop residual-FAK sweep on the ask side (lines 116-122). -/
def sweepAskFAK (s : OrderBookState) : OrderBookState :=
  match s.asks_ with
  | (_, order :: _) :: _ =>
    if order.orderType_ = OrderType.FillAndKill then OrderBook.CancelOrder s order.orderId_ else s
  | _ => s

/-- src/OrderBook.cpp, `OrderBook::MatchOrders`: the crossing loop
followed by the residual-FAK sweep on each side. -/
def OrderBook.MatchOrders (s : OrderBookState) : Except String (List Trade × OrderBookState) :=
  match matchOuter (bookSize s + 1) s [] with
  | .error e => .error e
  | .ok (trades, s1) => .ok (trades, sweepAskFAK (sweepBidFAK s1))

/-- The Market-order rewrite step of `OrderBook::AddOrder` (lines
164-174): a Market buy becomes a limit at the worst (highest) ask, a
Market sell a limit at the worst (lowest) bid; with an empty opposite
side the order is rejected (`none`).  Non-Market orders pass through. -/
def marketAdjust (s : OrderBookState) (order : Order) : Option Order :=
  if order.orderType_ = OrderType.Market then
    if order.side_ = Side.Buy ∧ s.asks_ ≠ [] then
      some (order.ToGoodTillCancel ((s.asks_.map Prod.fst).getLastD 0))
    else if order.side_ = Side.Sell ∧ s.bids_ ≠ [] then
      some (order.ToGoodTillCancel ((s.bids_.map Prod.fst).getLastD 0))
    else none
  else some order

/-- The enqueue step of `OrderBook::AddOrder` (lines 188-202): push the
order at the back of its price level on its side, insert it into the
order index, and update the level-data index with the initial quantity. -/
def enqueueOrder (s : OrderBookState) (order : Order) : OrderBookState :=
  let s1 :=
    if order.side_ = Side.Buy then
      { s with bids_ := insertBidLevel order.price_ order s.bids_ }
    else
      { s with asks_ := insertAskLevel order.price_ order s.asks_ }
  { s1 with
    orders_ := (order.orderId_, order) :: s1.orders_,
    data_ := OrderBook.OnOrderAdded s1.data_ order }

/-- src/OrderBook.cpp, `OrderBook::AddOrder` (lock erased): reject a
duplicate id; rewrite or reject a Market order; reject a `FillAndKill`
that cannot match or a `FillOrKill` that `CanFullyFill` refuses; else
enqueue and run the matching loop. -/
def OrderBook.AddOrder (s : OrderBookState) (order : Order) : Except String (List Trade × OrderBookState) :=
  if containsOrderId s.orders_ order.orderId_ then .ok ([], s)
  else
    match marketAdjust s order with
    | none => .ok ([], s)
    | some order =>
      if order.orderType_ = OrderType.FillAndKill ∧
          ¬ (OrderBook.CanMatch s order.side_ order.price_ = true) then .ok ([], s)
      else if order.orderType_ = OrderType.FillOrKill ∧
          ¬ (OrderBook.CanFullyFill s order.side_ order.price_ order.initialQuantity_ = true) then .ok ([], s)
      else
        OrderBook.MatchOrders (enqueueOrder s order)

/-- src/OrderBook.cpp, `OrderBook::ModifyOrder`: read the live order's
type (unknown id: silent no-op), cancel the old id, add the replacement
built by `OrderModify::ToOrderPointer`. -/
def OrderBook.ModifyOrder (s : OrderBookState) (m : OrderModify) : Except String (List Trade × OrderBookState) :=
  match lookupOrders s.orders_ m.orderId_ with
  | none => .ok ([], s)
  | some existingOrder =>
    OrderBook.AddOrder (OrderBook.CancelOrder s m.orderId_)
      (m.ToOrderPointer existingOrder.orderType_)

/-- Spec §4.6's description of `ModifyOrder`, written from the spec's
words for the refinement claim: remember the live order's type, cancel
the old id, then add a fresh order carrying the same id, the remembered
type, and the modify descriptor's side, price and quantity; an unknown
id is a silent no-op. -/
def ModifyAsCancelReplace (s : OrderBookState) (m : OrderModify) :
    Except String (List Trade × OrderBookState) :=
  match lookupOrders s.orders_ m.orderId_ with
  | none => .ok ([], s)
  | some existing =>
    OrderBook.AddOrder (OrderBook.CancelOrder s m.orderId_)
      { orderType_ := existing.orderType_, orderId_ := m.orderId_, side_ := m.side_,
        price_ := m.price_, initialQuantity_ := m.quantity_,
        remainingQuantity_ := m.quantity_ }

/-- src/LevelInfo.h. -/
structure LevelInfo where
  price_ : Int
  quantity_ : Nat
deriving DecidableEq, Repr

/-- src/OrderBook.cpp, `OrderBook::GetOrderInfos`: per-level aggregate
snapshot, bids highest-first and asks lowest-first. -/
def OrderBook.GetOrderInfos (s : OrderBookState) : List LevelInfo × List LevelInfo :=
  (s.bids_.map (fun e => ⟨e.1, sumRemaining e.2⟩), s.asks_.map (fun e => ⟨e.1, sumRemaining e.2⟩))

/-- Book states reachable from the empty book through the public
operations `AddOrder`, `CancelOrder` and `ModifyOrder`. -/
inductive Reachable : OrderBookState → Prop where
  | empty : Reachable emptyBook
  | add {s o tr s'} : Reachable s → OrderBook.AddOrder s o = .ok (tr, s') → Reachable s'
  | cancel {s id} : Reachable s → Reachable (OrderBook.CancelOrder s id)
  | modify {s m tr s'} : Reachable s → OrderBook.ModifyOrder s m = .ok (tr, s') → Reachable s'

/-! ## Basic facts about the association-list helpers -/

theorem levelOrders_nil : levelOrders [] = [] := rfl

theorem levelOrders_cons (e : Int × Level) (rest : List (Int × Level)) :
    levelOrders (e :: rest) = e.2 ++ levelOrders rest := rfl

theorem levelOrders_append (a b : List (Int × Level)) :
    levelOrders (a ++ b) = levelOrders a ++ levelOrders b := by
  induction a with
  | nil => rfl
  | cons e rest ih => simp [levelOrders_cons, ih, List.append_assoc]

theorem totalSize_cons (e : Int × Level) (rest : List (Int × Level)) :
    totalSize (e :: rest) = e.2.length + totalSize rest := by
  simp [totalSize]

theorem lookupLevel_cons_self (p : Int) (l : Level) (rest : List (Int × Level)) :
    lookupLevel ((p, l) :: rest) p = some l := by
  simp [lookupLevel]

theorem lookupLevel_eq_none {levels : List (Int × Level)} {p : Int}
    (h : ∀ e ∈ levels, e.1 ≠ p) : lookupLevel levels p = none := by
  induction levels with
  | nil => rfl
  | cons e rest ih =>
    obtain ⟨q, l⟩ := e
    have hq : q ≠ p := h (q, l) (by simp)
    simp only [lookupLevel, if_neg hq]
    exact ih fun e he => h e (by simp [he])

theorem eraseLevelKey_cons_self (p : Int) (l : Level) (rest : List (Int × Level)) :
    eraseLevelKey ((p, l) :: rest) p = rest := by
  simp [eraseLevelKey]

theorem setLevel_cons_self (p : Int) (l l' : Level) (rest : List (Int × Level)) :
    setLevel ((p, l) :: rest) p l' = (p, l') :: rest := by
  simp [setLevel]

theorem lookupOrders_cons_self (i : Nat) (o : Order) (rest : List (Nat × Order)) :
    lookupOrders ((i, o) :: rest) i = some o := by
  simp [lookupOrders]

theorem lookupOrders_cons_ne {i j : Nat} (o : Order) (rest : List (Nat × Order))
    (h : i ≠ j) : lookupOrders ((i, o) :: rest) j = lookupOrders rest j := by
  simp [lookupOrders, h]

theorem eraseOrders_cons_self (i : Nat) (o : Order) (rest : List (Nat × Order)) :
    eraseOrders ((i, o) :: rest) i = eraseOrders rest i := by
  simp [eraseOrders]

theorem eraseOrders_cons_ne {k i : Nat} (o : Order) (rest : List (Nat × Order)) (h : k ≠ i) :
    eraseOrders ((k, o) :: rest) i = (k, o) :: eraseOrders rest i := by
  simp [eraseOrders, h]

theorem lookupOrders_erase_ne {orders : List (Nat × Order)} {i j : Nat} (h : j ≠ i) :
    lookupOrders (eraseOrders orders i) j = lookupOrders orders j := by
  induction orders with
  | nil => rfl
  | cons e rest ih =>
    obtain ⟨k, o⟩ := e
    by_cases hk : k = i
    · subst hk
      rw [eraseOrders_cons_self, lookupOrders_cons_ne o rest (fun h' => h h'.symm), ih]
    · rw [eraseOrders_cons_ne o rest hk]
      by_cases hkj : k = j
      · subst hkj
        rw [lookupOrders_cons_self, lookupOrders_cons_self]
      · rw [lookupOrders_cons_ne _ _ hkj, lookupOrders_cons_ne _ _ hkj, ih]

/-! ## Facts about `Order.Fill` -/

theorem Order.Fill_ok {o : Order} {q : Nat} (h : q ≤ o.remainingQuantity_) :
    o.Fill q = .ok { o with remainingQuantity_ := o.remainingQuantity_ - q } := by
  simp [Order.Fill, Nat.not_lt.mpr h]

theorem Order.Fill_error {o : Order} {q : Nat} (h : o.remainingQuantity_ < q) :
    o.Fill q = .error "cannot be filled for more than its remaining quantity" := by
  simp [Order.Fill, h]

/-! ## The level shrunk by the matching step

In the inner matching loop the level at the current best price is
replaced by a new (possibly empty) queue `nl`; the level is erased
exactly when `nl` is empty.  When the level is the head of the side map
this is `if nl = [] then rest else (p, nl) :: rest`. -/

theorem levelOrders_shrink (p : Int) (nl : Level) (rest : List (Int × Level)) :
    levelOrders (if nl = [] then rest else (p, nl) :: rest) = nl ++ levelOrders rest := by
  split
  · simp_all
  · simp [levelOrders_cons]

theorem totalSize_shrink (p : Int) (nl : Level) (rest : List (Int × Level)) :
    totalSize (if nl = [] then rest else (p, nl) :: rest) = nl.length + totalSize rest := by
  split
  · simp_all [totalSize]
  · simp [totalSize_cons]

theorem keys_shrink (p : Int) (nl : Level) (rest : List (Int × Level)) :
    List.Sublist ((if nl = [] then rest else (p, nl) :: rest).map Prod.fst)
      (p :: rest.map Prod.fst) := by
  split
  · exact List.sublist_cons_self p (rest.map Prod.fst)
  · simp [List.Sublist.refl]

theorem neAll_shrink (p : Int) (nl : Level) {rest : List (Int × Level)}
    (h : ∀ e ∈ rest, e.2 ≠ []) :
    ∀ e ∈ (if nl = [] then rest else (p, nl) :: rest), e.2 ≠ [] := by
  split
  · exact h
  · rename_i hne
    intro e he
    rcases List.mem_cons.mp he with h1 | h1
    · subst h1; exact hne
    · exact h e h1

/-! ## Totality of the matching loop

Every `Fill` call inside `MatchOrders` is made with
`min bid.remaining ask.remaining`, which never exceeds either side's
remaining quantity, so the error branch of `Order.Fill` is unreachable
for any state whatsoever. -/

theorem Order.Fill_min_left (bid ask : Order) :
    bid.Fill (min bid.remainingQuantity_ ask.remainingQuantity_) =
      .ok { bid with remainingQuantity_ :=
        bid.remainingQuantity_ - min bid.remainingQuantity_ ask.remainingQuantity_ } :=
  Order.Fill_ok (min_le_left _ _)

theorem Order.Fill_min_right (bid ask : Order) :
    ask.Fill (min bid.remainingQuantity_ ask.remainingQuantity_) =
      .ok { ask with remainingQuantity_ :=
        ask.remainingQuantity_ - min bid.remainingQuantity_ ask.remainingQuantity_ } :=
  Order.Fill_ok (min_le_right _ _)

theorem matchInner_ok (fuel : Nat) (bidPrice askPrice : Int) :
    ∀ (s : OrderBookState) (acc : List Trade),
      ∃ r, matchInner fuel bidPrice askPrice s acc = .ok r := by
  induction fuel with
  | zero => intro s acc; exact ⟨(acc, s), rfl⟩
  | succ n ih =>
    intro s acc
    rw [matchInner]
    rcases hb : lookupLevel s.bids_ bidPrice with _ | lb
    · exact ⟨(acc, s), rfl⟩
    rcases lb with _ | ⟨bid, bidsRest⟩
    · exact ⟨(acc, s), rfl⟩
    rcases ha : lookupLevel s.asks_ askPrice with _ | la
    · exact ⟨(acc, s), rfl⟩
    rcases la with _ | ⟨ask, asksRest⟩
    · exact ⟨(acc, s), rfl⟩
    simp only [Order.Fill_min_left, Order.Fill_min_right]
    exact ih _ _

theorem matchOuter_ok (fuel : Nat) :
    ∀ (s : OrderBookState) (acc : List Trade),
      ∃ r, matchOuter fuel s acc = .ok r := by
  induction fuel with
  | zero => intro s acc; exact ⟨(acc, s), rfl⟩
  | succ n ih =>
    intro s acc
    rw [matchOuter]
    rcases hb : s.bids_.head? with _ | ⟨bidPrice, lb⟩
    · exact ⟨(acc, s), rfl⟩
    rcases ha : s.asks_.head? with _ | ⟨askPrice, la⟩
    · exact ⟨(acc, s), rfl⟩
    simp only
    by_cases hlt : bidPrice < askPrice
    · rw [if_pos hlt]; exact ⟨(acc, s), rfl⟩
    · rw [if_neg hlt]
      obtain ⟨⟨acc', s'⟩, hinner⟩ := matchInner_ok (bookSize s + 1) bidPrice askPrice s acc
      rw [hinner]
      exact ih s' acc'

theorem MatchOrders_ok (s : OrderBookState) :
    ∃ r, OrderBook.MatchOrders s = .ok r := by
  rw [OrderBook.MatchOrders]
  obtain ⟨⟨trades, s1⟩, h⟩ := matchOuter_ok (bookSize s + 1) s []
  rw [h]
  exact ⟨_, rfl⟩

theorem AddOrder_ok (s : OrderBookState) (o : Order) :
    ∃ r, OrderBook.AddOrder s o = .ok r := by
  rw [OrderBook.AddOrder]
  by_cases hc : containsOrderId s.orders_ o.orderId_
  · rw [if_pos hc]; exact ⟨([], s), rfl⟩
  · rw [if_neg hc]
    rcases hm : marketAdjust s o with _ | o'
    · exact ⟨([], s), rfl⟩
    simp only
    by_cases h1 : o'.orderType_ = OrderType.FillAndKill ∧
        ¬ (OrderBook.CanMatch s o'.side_ o'.price_ = true)
    · rw [if_pos h1]; exact ⟨([], s), rfl⟩
    rw [if_neg h1]
    by_cases h2 : o'.orderType_ = OrderType.FillOrKill ∧
        ¬ (OrderBook.CanFullyFill s o'.side_ o'.price_ o'.initialQuantity_ = true)
    · rw [if_pos h2]; exact ⟨([], s), rfl⟩
    rw [if_neg h2]
    exact MatchOrders_ok _

theorem ModifyOrder_ok (s : OrderBookState) (m : OrderModify) :
    ∃ r, OrderBook.ModifyOrder s m = .ok r := by
  rw [OrderBook.ModifyOrder]
  rcases h : lookupOrders s.orders_ m.orderId_ with _ | ex
  · exact ⟨([], s), rfl⟩
  · exact AddOrder_ok _ _

/-! ## Book well-formedness -/

/-- The immutable fields of an order (everything except the remaining
quantity, which is the only field `Order.Fill` changes). -/
def osig (o : Order) : Nat × OrderType × Side × Int :=
  (o.orderId_, o.orderType_, o.side_, o.price_)

theorem osig_eq_iff {o₁ o₂ : Order} :
    osig o₁ = osig o₂ ↔ (o₁.orderId_ = o₂.orderId_ ∧ o₁.orderType_ = o₂.orderType_ ∧
      o₁.side_ = o₂.side_ ∧ o₁.price_ = o₂.price_) := by
  simp [osig]

/-- Every order sits at the level keyed by its own price. -/
def priceAll (levels : List (Int × Level)) : Prop :=
  ∀ e ∈ levels, ∀ o ∈ e.2, o.price_ = e.1

/-- Every order in the side map carries that side. -/
def sideAll (levels : List (Int × Level)) (sd : Side) : Prop :=
  ∀ e ∈ levels, ∀ o ∈ e.2, o.side_ = sd

/-- No empty level is retained in a side map. -/
def neAll (levels : List (Int × Level)) : Prop :=
  ∀ e ∈ levels, e.2 ≠ []

/-- Bid keys are strictly descending (`std::map<..., std::greater>`). -/
def sortedDesc (levels : List (Int × Level)) : Prop :=
  (levels.map Prod.fst).Pairwise (fun a b => b < a)

/-- Ask keys are strictly ascending (`std::map<..., std::less>`). -/
def sortedAsc (levels : List (Int × Level)) : Prop :=
  (levels.map Prod.fst).Pairwise (fun a b => a < b)

/-- Cross-structure well-formedness of the book: sorted side maps, no
empty level, orders keyed by their own price and side, globally unique
order ids, and every resting order indexed in `orders_` with the same
immutable fields. -/
structure BookWF (s : OrderBookState) : Prop where
  sortedBids : sortedDesc s.bids_
  sortedAsks : sortedAsc s.asks_
  neBids : neAll s.bids_
  neAsks : neAll s.asks_
  priceBids : priceAll s.bids_
  priceAsks : priceAll s.asks_
  sideBids : sideAll s.bids_ Side.Buy
  sideAsks : sideAll s.asks_ Side.Sell
  nodupIds : ((allOrders s).map Order.orderId_).Nodup
  idx : ∀ o ∈ allOrders s, ∃ o₀, lookupOrders s.orders_ o.orderId_ = some o₀ ∧ osig o₀ = osig o

/-- Any `FillAndKill` order in a side map is alone at the front level
(which is where the just-enqueued FAK of the running `AddOrder` lives). -/
def fakAtHead (levels : List (Int × Level)) : Prop :=
  ∀ o ∈ levelOrders levels, o.orderType_ = OrderType.FillAndKill →
    ∃ rest, levels = (o.price_, [o]) :: rest

def FAKloc (s : OrderBookState) : Prop :=
  fakAtHead s.bids_ ∧ fakAtHead s.asks_

/-- The book is not crossed: whenever both sides are non-empty the best
bid price is strictly below the best ask price. -/
def NotCrossed (s : OrderBookState) : Prop :=
  ∀ bp lb ap la, s.bids_.head? = some (bp, lb) → s.asks_.head? = some (ap, la) → bp < ap

/-- No `FillAndKill` order rests in either side map. -/
def NoFAK (s : OrderBookState) : Prop :=
  ∀ o ∈ allOrders s, o.orderType_ ≠ OrderType.FillAndKill

/-- The reachable-state invariant. -/
def BookInv (s : OrderBookState) : Prop :=
  BookWF s ∧ NotCrossed s ∧ NoFAK s

theorem emptyBook_BookInv : BookInv emptyBook := by
  refine ⟨⟨?_, ?_, ?_, ?_, ?_, ?_, ?_, ?_, ?_, ?_⟩, ?_, ?_⟩ <;>
    simp [emptyBook, sortedDesc, sortedAsc, neAll, priceAll, sideAll, NotCrossed, NoFAK,
      allOrders, bidOrders, askOrders, levelOrders]

/-! ## Sorted-key facts -/

theorem sortedDesc_cons {p : Int} {l : Level} {rest : List (Int × Level)}
    (h : sortedDesc ((p, l) :: rest)) :
    (∀ k ∈ rest.map Prod.fst, k < p) ∧ sortedDesc rest := by
  rw [sortedDesc, List.map_cons, List.pairwise_cons] at h
  exact h

theorem sortedAsc_cons {p : Int} {l : Level} {rest : List (Int × Level)}
    (h : sortedAsc ((p, l) :: rest)) :
    (∀ k ∈ rest.map Prod.fst, p < k) ∧ sortedAsc rest := by
  rw [sortedAsc, List.map_cons, List.pairwise_cons] at h
  exact h

theorem lookupLevel_tail_none_of_sortedDesc {p : Int} {l : Level} {rest : List (Int × Level)}
    (h : sortedDesc ((p, l) :: rest)) : lookupLevel rest p = none := by
  refine lookupLevel_eq_none fun e he => ?_
  have := (sortedDesc_cons h).1 e.1 (List.mem_map_of_mem Prod.fst he)
  exact ne_of_lt this

theorem lookupLevel_tail_none_of_sortedAsc {p : Int} {l : Level} {rest : List (Int × Level)}
    (h : sortedAsc ((p, l) :: rest)) : lookupLevel rest p = none := by
  refine lookupLevel_eq_none fun e he => ?_
  have := (sortedAsc_cons h).1 e.1 (List.mem_map_of_mem Prod.fst he)
  exact ne_of_gt this

theorem keysNodup_of_sortedDesc {levels : List (Int × Level)} (h : sortedDesc levels) :
    (levels.map Prod.fst).Nodup :=
  h.imp fun hlt => ne_of_gt hlt

theorem keysNodup_of_sortedAsc {levels : List (Int × Level)} (h : sortedAsc levels) :
    (levels.map Prod.fst).Nodup :=
  h.imp fun hlt => ne_of_lt hlt

/-! ## Decomposition of lookup / erase / set at a present key -/

theorem lookupLevel_decomp {levels : List (Int × Level)} {p : Int} {l : Level}
    (h : lookupLevel levels p = some l) :
    ∃ pre post, levels = pre ++ (p, l) :: post ∧ ∀ e ∈ pre, e.1 ≠ p := by
  induction levels with
  | nil => simp [lookupLevel] at h
  | cons e rest ih =>
    obtain ⟨q, l₀⟩ := e
    by_cases hq : q = p
    · subst hq
      rw [lookupLevel_cons_self] at h
      obtain rfl : l₀ = l := by injection h
      exact ⟨[], rest, rfl, by simp⟩
    · rw [lookupLevel, if_neg hq] at h
      obtain ⟨pre, post, hsplit, hpre⟩ := ih h
      refine ⟨(q, l₀) :: pre, post, by rw [hsplit]; rfl, ?_⟩
      intro e he
      rcases List.mem_cons.mp he with rfl | he'
      · exact hq
      · exact hpre e he'

theorem eraseLevelKey_append {pre post : List (Int × Level)} {p : Int} {l : Level}
    (hpre : ∀ e ∈ pre, e.1 ≠ p) :
    eraseLevelKey (pre ++ (p, l) :: post) p = pre ++ post := by
  induction pre with
  | nil => simp [eraseLevelKey]
  | cons e rest ih =>
    obtain ⟨q, l₀⟩ := e
    have hq : q ≠ p := hpre (q, l₀) (by simp)
    simp only [List.cons_append, eraseLevelKey, if_neg hq]
    exact congrArg (List.cons (q, l₀)) (ih fun e he => hpre e (by simp [he]))

theorem setLevel_append {pre post : List (Int × Level)} {p : Int} {l l' : Level}
    (hpre : ∀ e ∈ pre, e.1 ≠ p) :
    setLevel (pre ++ (p, l) :: post) p l' = pre ++ (p, l') :: post := by
  induction pre with
  | nil => simp [setLevel]
  | cons e rest ih =>
    obtain ⟨q, l₀⟩ := e
    have hq : q ≠ p := hpre (q, l₀) (by simp)
    simp only [List.cons_append, setLevel, if_neg hq]
    exact congrArg (List.cons (q, l₀)) (ih fun e he => hpre e (by simp [he]))

/-! ## Effect of `removeFromLevels` (the level surgery of a cancel) -/

theorem removeFromLevels_of_lookup_none {levels : List (Int × Level)} {p : Int} {i : Nat}
    (h : lookupLevel levels p = none) : removeFromLevels levels p i = levels := by
  rw [removeFromLevels, h]

theorem removeFromLevels_shape {levels : List (Int × Level)} {p : Int} {l : Level} {i : Nat}
    (h : lookupLevel levels p = some l) :
    ∃ pre post, levels = pre ++ (p, l) :: post ∧ (∀ e ∈ pre, e.1 ≠ p) ∧
      removeFromLevels levels p i =
        (if l.filter (fun o => o.orderId_ ≠ i) = [] then pre ++ post
         else pre ++ (p, l.filter (fun o => o.orderId_ ≠ i)) :: post) := by
  obtain ⟨pre, post, heq, hpre⟩ := lookupLevel_decomp h
  refine ⟨pre, post, heq, hpre, ?_⟩
  rw [removeFromLevels, h]
  simp only
  split
  · rw [heq, eraseLevelKey_append hpre]
  · rw [heq, setLevel_append hpre]

theorem removeFromLevels_orders_sublist (levels : List (Int × Level)) (p : Int) (i : Nat) :
    List.Sublist (levelOrders (removeFromLevels levels p i)) (levelOrders levels) := by
  rcases hl : lookupLevel levels p with _ | l
  · rw [removeFromLevels_of_lookup_none hl]
  · obtain ⟨pre, post, heq, hpre, hres⟩ := @removeFromLevels_shape _ _ _ i hl
    rw [hres, heq]
    rw [levelOrders_append, levelOrders_cons]
    split
    · rw [levelOrders_append]
      exact (List.Sublist.refl _).append (List.sublist_append_right _ _)
    · rw [levelOrders_append, levelOrders_cons]
      exact (List.Sublist.refl _).append ((List.filter_sublist l).append (List.Sublist.refl _))

theorem removeFromLevels_keys_sublist (levels : List (Int × Level)) (p : Int) (i : Nat) :
    List.Sublist ((removeFromLevels levels p i).map Prod.fst) (levels.map Prod.fst) := by
  rcases hl : lookupLevel levels p with _ | l
  · rw [removeFromLevels_of_lookup_none hl]
  · obtain ⟨pre, post, heq, hpre, hres⟩ := @removeFromLevels_shape _ _ _ i hl
    rw [hres, heq]
    split
    · simp only [List.map_append, List.map_cons]
      exact (List.Sublist.refl _).append (List.sublist_cons_self _ _)
    · simp only [List.map_append, List.map_cons]
      exact List.Sublist.refl _

theorem removeFromLevels_entry_mem {levels : List (Int × Level)} {p : Int} {i : Nat}
    {e : Int × Level} (he : e ∈ removeFromLevels levels p i) :
    e ∈ levels ∨ ∃ l, lookupLevel levels p = some l ∧ e = (p, l.filter (fun o => o.orderId_ ≠ i)) := by
  rcases hl : lookupLevel levels p with _ | l
  · rw [removeFromLevels_of_lookup_none hl] at he
    exact Or.inl he
  · obtain ⟨pre, post, heq, hpre, hres⟩ := @removeFromLevels_shape _ _ _ i hl
    rw [hres] at he
    have hmem : ∀ e' : Int × Level, e' ∈ pre ++ (p, l) :: post → e' ∈ levels := by
      intro e' he'; rw [heq]; exact he'
    split at he
    · rcases List.mem_append.mp he with h1 | h1
      · exact Or.inl (hmem e (List.mem_append.mpr (Or.inl h1)))
      · exact Or.inl (hmem e (List.mem_append.mpr (Or.inr (List.mem_cons_of_mem _ h1))))
    · rcases List.mem_append.mp he with h1 | h1
      · exact Or.inl (hmem e (List.mem_append.mpr (Or.inl h1)))
      · rcases List.mem_cons.mp h1 with rfl | h1
        · exact Or.inr ⟨l, rfl, rfl⟩
        · exact Or.inl (hmem e (List.mem_append.mpr (Or.inr (List.mem_cons_of_mem _ h1))))

theorem removeFromLevels_neAll {levels : List (Int × Level)} {p : Int} {i : Nat}
    (h : neAll levels) : neAll (removeFromLevels levels p i) := by
  intro e he
  rcases hl : lookupLevel levels p with _ | l
  · rw [removeFromLevels_of_lookup_none hl] at he
    exact h e he
  · obtain ⟨pre, post, heq, hpre, hres⟩ := @removeFromLevels_shape _ _ _ i hl
    rw [hres] at he
    split at he
    · rw [heq] at h
      rcases List.mem_append.mp he with h1 | h1
      · exact h e (List.mem_append.mpr (Or.inl h1))
      · exact h e (List.mem_append.mpr (Or.inr (List.mem_cons_of_mem _ h1)))
    · rename_i hne
      rw [heq] at h
      rcases List.mem_append.mp he with h1 | h1
      · exact h e (List.mem_append.mpr (Or.inl h1))
      · rcases List.mem_cons.mp h1 with rfl | h1
        · exact hne
        · exact h e (List.mem_append.mpr (Or.inr (List.mem_cons_of_mem _ h1)))

theorem removeFromLevels_priceAll {levels : List (Int × Level)} {p : Int} {i : Nat}
    (h : priceAll levels) : priceAll (removeFromLevels levels p i) := by
  intro e he o ho
  rcases removeFromLevels_entry_mem he with h1 | ⟨l, hl, rfl⟩
  · exact h e h1 o ho
  · obtain ⟨pre, post, heq, hpre⟩ := lookupLevel_decomp hl
    have : o ∈ l := List.mem_of_mem_filter ho
    exact h (p, l) (by rw [heq]; exact List.mem_append.mpr (Or.inr (List.mem_cons_self _ _))) o this

theorem removeFromLevels_sideAll {levels : List (Int × Level)} {p : Int} {i : Nat} {sd : Side}
    (h : sideAll levels sd) : sideAll (removeFromLevels levels p i) sd := by
  intro e he o ho
  rcases removeFromLevels_entry_mem he with h1 | ⟨l, hl, rfl⟩
  · exact h e h1 o ho
  · obtain ⟨pre, post, heq, hpre⟩ := lookupLevel_decomp hl
    have : o ∈ l := List.mem_of_mem_filter ho
    exact h (p, l) (by rw [heq]; exact List.mem_append.mpr (Or.inr (List.mem_cons_self _ _))) o this

theorem levelOrders_mem_entry {levels : List (Int × Level)} {o : Order}
    (h : o ∈ levelOrders levels) : ∃ e ∈ levels, o ∈ e.2 := by
  induction levels with
  | nil => simp [levelOrders] at h
  | cons e rest ih =>
    rw [levelOrders_cons, List.mem_append] at h
    rcases h with h1 | h1
    · exact ⟨e, List.mem_cons_self _ _, h1⟩
    · obtain ⟨e', he', ho⟩ := ih h1
      exact ⟨e', List.mem_cons_of_mem _ he', ho⟩

theorem lookupLevel_ne_none_of_key_mem {levels : List (Int × Level)} {p : Int}
    (h : p ∈ levels.map Prod.fst) : lookupLevel levels p ≠ none := by
  induction levels with
  | nil => simp at h
  | cons e rest ih =>
    obtain ⟨q, l⟩ := e
    rw [lookupLevel]
    split
    · exact fun hc => Option.noConfusion hc
    · rename_i hq
      refine ih ?_
      rw [List.map_cons] at h
      rcases List.mem_cons.mp h with h1 | h1
      · exact absurd h1.symm hq
      · exact h1

theorem removeFromLevels_id_ne {levels : List (Int × Level)} {p : Int} {i : Nat}
    (hkeys : (levels.map Prod.fst).Nodup) (hprice : priceAll levels) :
    ∀ o ∈ levelOrders (removeFromLevels levels p i), o.price_ = p → o.orderId_ ≠ i := by
  intro o ho hp
  rcases hl : lookupLevel levels p with _ | l
  · -- there is no level keyed `p` at all, contradicting `o.price_ = p`
    rw [removeFromLevels_of_lookup_none hl] at ho
    obtain ⟨e, he, hoe⟩ := levelOrders_mem_entry ho
    have : o.price_ = e.1 := hprice e he o hoe
    exact absurd hl (lookupLevel_ne_none_of_key_mem (by
      rw [← hp, this]; exact List.mem_map_of_mem Prod.fst he))
  · obtain ⟨pre, post, heq, hpre, hres⟩ := @removeFromLevels_shape _ _ _ i hl
    have hppost : p ∉ post.map Prod.fst := by
      rw [heq, List.map_append, List.map_cons] at hkeys
      have h2 := List.nodup_middle.mp hkeys
      intro hmem
      exact (List.Nodup.not_mem h2) (List.mem_append.mpr (Or.inr hmem))
    have hmemPre : o ∉ levelOrders pre := by
      intro hoPre
      obtain ⟨e, he, hoe⟩ := levelOrders_mem_entry hoPre
      have : o.price_ = e.1 := hprice e (by rw [heq]; exact List.mem_append.mpr (Or.inl he)) o hoe
      exact hpre e he (by rw [← this, hp])
    have hmemPost : o ∉ levelOrders post := by
      intro hoPost
      obtain ⟨e, he, hoe⟩ := levelOrders_mem_entry hoPost
      have : o.price_ = e.1 := hprice e (by
        rw [heq]
        exact List.mem_append.mpr (Or.inr (List.mem_cons_of_mem _ he))) o hoe
      exact hppost (by rw [← hp, this]; exact List.mem_map_of_mem Prod.fst he)
    rw [hres] at ho
    split at ho
    · rw [levelOrders_append] at ho
      rcases List.mem_append.mp ho with h1 | h1
      · exact absurd h1 hmemPre
      · exact absurd h1 hmemPost
    · rw [levelOrders_append, levelOrders_cons, List.mem_append] at ho
      rcases ho with h1 | h1
      · exact absurd h1 hmemPre
      · rcases List.mem_append.mp h1 with h2 | h2
        · have := List.of_mem_filter h2
          simpa using this
        · exact absurd h2 hmemPost

/-! ## Effect of `CancelOrderInternals` -/

theorem CancelOrderInternals_shape (s : OrderBookState) (i : Nat) :
    (lookupOrders s.orders_ i = none ∧ OrderBook.CancelOrderInternals s i = s) ∨
    (∃ o₀, lookupOrders s.orders_ i = some o₀ ∧
      OrderBook.CancelOrderInternals s i =
        { data_ := s.data_
          asks_ := if o₀.side_ = Side.Sell then removeFromLevels s.asks_ o₀.price_ i else s.asks_
          bids_ := if o₀.side_ = Side.Buy then removeFromLevels s.bids_ o₀.price_ i else s.bids_
          orders_ := eraseOrders s.orders_ i }) := by
  rcases h : lookupOrders s.orders_ i with _ | o₀
  · left
    refine ⟨rfl, ?_⟩
    rw [OrderBook.CancelOrderInternals, h]
  · right
    refine ⟨o₀, rfl, ?_⟩
    rw [OrderBook.CancelOrderInternals, h]
    rcases hside : o₀.side_ with _ | _ <;> simp [hside]

theorem cancel_data (s : OrderBookState) (i : Nat) :
    (OrderBook.CancelOrderInternals s i).data_ = s.data_ := by
  rcases CancelOrderInternals_shape s i with ⟨_, heq⟩ | ⟨o₀, _, heq⟩ <;> rw [heq]

theorem cancel_bid_keys_sublist (s : OrderBookState) (i : Nat) :
    List.Sublist ((OrderBook.CancelOrderInternals s i).bids_.map Prod.fst)
      (s.bids_.map Prod.fst) := by
  rcases CancelOrderInternals_shape s i with ⟨_, heq⟩ | ⟨o₀, _, heq⟩
  · rw [heq]
  · rw [heq]
    simp only
    split
    · exact removeFromLevels_keys_sublist _ _ _
    · exact List.Sublist.refl _

theorem cancel_ask_keys_sublist (s : OrderBookState) (i : Nat) :
    List.Sublist ((OrderBook.CancelOrderInternals s i).asks_.map Prod.fst)
      (s.asks_.map Prod.fst) := by
  rcases CancelOrderInternals_shape s i with ⟨_, heq⟩ | ⟨o₀, _, heq⟩
  · rw [heq]
  · rw [heq]
    simp only
    split
    · exact removeFromLevels_keys_sublist _ _ _
    · exact List.Sublist.refl _

theorem cancel_bidOrders_sublist (s : OrderBookState) (i : Nat) :
    List.Sublist (bidOrders (OrderBook.CancelOrderInternals s i)) (bidOrders s) := by
  rcases CancelOrderInternals_shape s i with ⟨_, heq⟩ | ⟨o₀, _, heq⟩
  · rw [heq]
  · rw [heq, bidOrders, bidOrders]
    simp only
    split
    · exact removeFromLevels_orders_sublist _ _ _
    · exact List.Sublist.refl _

theorem cancel_askOrders_sublist (s : OrderBookState) (i : Nat) :
    List.Sublist (askOrders (OrderBook.CancelOrderInternals s i)) (askOrders s) := by
  rcases CancelOrderInternals_shape s i with ⟨_, heq⟩ | ⟨o₀, _, heq⟩
  · rw [heq]
  · rw [heq, askOrders, askOrders]
    simp only
    split
    · exact removeFromLevels_orders_sublist _ _ _
    · exact List.Sublist.refl _

theorem cancel_allOrders_sublist (s : OrderBookState) (i : Nat) :
    List.Sublist (allOrders (OrderBook.CancelOrderInternals s i)) (allOrders s) :=
  List.Sublist.append (cancel_bidOrders_sublist s i) (cancel_askOrders_sublist s i)

theorem head_key_mem {levels : List (Int × Level)} {p : Int} {l : Level}
    (h : levels.head? = some (p, l)) : p ∈ levels.map Prod.fst := by
  rcases levels with _ | ⟨e, rest⟩
  · simp at h
  · obtain rfl : e = (p, l) := by simpa using h
    simp

theorem cancel_NotCrossed {s : OrderBookState} (hwf : BookWF s) (hnc : NotCrossed s) (i : Nat) :
    NotCrossed (OrderBook.CancelOrderInternals s i) := by
  intro bp lb ap la hb ha
  have hbp : bp ∈ s.bids_.map Prod.fst :=
    (cancel_bid_keys_sublist s i).subset (head_key_mem hb)
  have hap : ap ∈ s.asks_.map Prod.fst :=
    (cancel_ask_keys_sublist s i).subset (head_key_mem ha)
  rcases hsb : s.bids_ with _ | ⟨⟨q, lq⟩, rest⟩
  · rw [hsb] at hbp; simp at hbp
  rcases hsa : s.asks_ with _ | ⟨⟨r, lr⟩, rest'⟩
  · rw [hsa] at hap; simp at hap
  have hql : bp ≤ q := by
    rw [hsb, List.map_cons] at hbp
    rcases List.mem_cons.mp hbp with h1 | h1
    · exact le_of_eq h1
    · have hs := hwf.sortedBids
      rw [hsb] at hs
      exact le_of_lt ((sortedDesc_cons hs).1 bp h1)
  have hrl : r ≤ ap := by
    rw [hsa, List.map_cons] at hap
    rcases List.mem_cons.mp hap with h1 | h1
    · exact le_of_eq h1.symm
    · have hs := hwf.sortedAsks
      rw [hsa] at hs
      exact le_of_lt ((sortedAsc_cons hs).1 ap h1)
  have hqr : q < r := hnc q lq r lr (by rw [hsb]; rfl) (by rw [hsa]; rfl)
  omega

theorem cancel_BookWF {s : OrderBookState} (hwf : BookWF s) (i : Nat) :
    BookWF (OrderBook.CancelOrderInternals s i) := by
  rcases CancelOrderInternals_shape s i with ⟨_, heq⟩ | ⟨o₀, hlk, heq⟩
  · rw [heq]; exact hwf
  · have hsubAll := cancel_allOrders_sublist s i
    refine ⟨?_, ?_, ?_, ?_, ?_, ?_, ?_, ?_, ?_, ?_⟩
    · exact List.Pairwise.sublist (cancel_bid_keys_sublist s i) hwf.sortedBids
    · exact List.Pairwise.sublist (cancel_ask_keys_sublist s i) hwf.sortedAsks
    · rw [heq]
      simp only
      split
      · exact removeFromLevels_neAll hwf.neBids
      · exact hwf.neBids
    · rw [heq]
      simp only
      split
      · exact removeFromLevels_neAll hwf.neAsks
      · exact hwf.neAsks
    · rw [heq]
      simp only
      split
      · exact removeFromLevels_priceAll hwf.priceBids
      · exact hwf.priceBids
    · rw [heq]
      simp only
      split
      · exact removeFromLevels_priceAll hwf.priceAsks
      · exact hwf.priceAsks
    · rw [heq]
      simp only
      split
      · exact removeFromLevels_sideAll hwf.sideBids
      · exact hwf.sideBids
    · rw [heq]
      simp only
      split
      · exact removeFromLevels_sideAll hwf.sideAsks
      · exact hwf.sideAsks
    · exact List.Nodup.sublist (List.Sublist.map _ hsubAll) hwf.nodupIds
    · intro o ho
      have hoOld : o ∈ allOrders s := List.Sublist.subset hsubAll ho
      obtain ⟨e₀, he₀, hsig⟩ := hwf.idx o hoOld
      have hne : o.orderId_ ≠ i := by
        intro hid
        rw [hid] at he₀
        rw [he₀] at hlk
        have heo : e₀ = o₀ := by injection hlk
        have hsd : o₀.side_ = o.side_ := by
          rw [← heo]; exact (osig_eq_iff.mp hsig).2.2.1
        have hpr : o₀.price_ = o.price_ := by
          rw [← heo]; exact (osig_eq_iff.mp hsig).2.2.2
        have hallEq : allOrders (OrderBook.CancelOrderInternals s i) =
            levelOrders (if o₀.side_ = Side.Buy then removeFromLevels s.bids_ o₀.price_ i
              else s.bids_) ++
            levelOrders (if o₀.side_ = Side.Sell then removeFromLevels s.asks_ o₀.price_ i
              else s.asks_) := by
          rw [heq]
          rfl
        rw [hallEq] at ho
        rcases hsde : o₀.side_ with _ | _
        · rw [hsde] at ho
          rw [if_pos rfl, if_neg (by decide)] at ho
          rcases List.mem_append.mp ho with hbid | hask
          · exact removeFromLevels_id_ne (keysNodup_of_sortedDesc hwf.sortedBids)
              hwf.priceBids o hbid (by rw [← hpr]) hid
          · have hSell : o.side_ = Side.Sell := by
              obtain ⟨e', he', hoe⟩ := levelOrders_mem_entry hask
              exact hwf.sideAsks e' he' o hoe
            rw [← hsd, hsde] at hSell
            exact Side.noConfusion hSell
        · rw [hsde] at ho
          rw [if_neg (by decide), if_pos rfl] at ho
          rcases List.mem_append.mp ho with hbid | hask
          · have hBuy : o.side_ = Side.Buy := by
              obtain ⟨e', he', hoe⟩ := levelOrders_mem_entry hbid
              exact hwf.sideBids e' he' o hoe
            rw [← hsd, hsde] at hBuy
            exact Side.noConfusion hBuy
          · exact removeFromLevels_id_ne (keysNodup_of_sortedAsc hwf.sortedAsks)
              hwf.priceAsks o hask (by rw [← hpr]) hid
      rw [heq]
      simp only
      rw [lookupOrders_erase_ne hne]
      exact ⟨e₀, he₀, hsig⟩

/-! ## Effect of level insertion (the enqueue step of `AddOrder`) -/

theorem insertBidLevel_keys_mem {p : Int} {o : Order} {levels : List (Int × Level)} {k : Int}
    (h : k ∈ (insertBidLevel p o levels).map Prod.fst) : k = p ∨ k ∈ levels.map Prod.fst := by
  induction levels with
  | nil =>
    rw [insertBidLevel] at h
    simp only [List.map_cons, List.map_nil] at h
    rcases List.mem_cons.mp h with h1 | h1
    · exact Or.inl h1
    · simp at h1
  | cons e rest ih =>
    obtain ⟨q, l⟩ := e
    rw [insertBidLevel] at h
    split at h
    · rename_i hpq
      simp only [List.map_cons] at h ⊢
      exact Or.inr h
    · split at h
      · simp only [List.map_cons] at h ⊢
        rcases List.mem_cons.mp h with h1 | h1
        · exact Or.inl h1
        · exact Or.inr h1
      · simp only [List.map_cons] at h ⊢
        rcases List.mem_cons.mp h with h1 | h1
        · exact Or.inr (List.mem_cons.mpr (Or.inl h1))
        · rcases ih h1 with h2 | h2
          · exact Or.inl h2
          · exact Or.inr (List.mem_cons.mpr (Or.inr h2))

theorem insertBidLevel_sortedDesc {p : Int} {o : Order} {levels : List (Int × Level)}
    (h : sortedDesc levels) : sortedDesc (insertBidLevel p o levels) := by
  induction levels with
  | nil => simp [insertBidLevel, sortedDesc]
  | cons e rest ih =>
    obtain ⟨q, l⟩ := e
    obtain ⟨hq, hrest⟩ := sortedDesc_cons h
    rw [insertBidLevel]
    split
    · exact h
    · split
      · rename_i hpq hql
        rw [sortedDesc] at h ⊢
        simp only [List.map_cons] at h ⊢
        refine List.Pairwise.cons ?_ h
        intro k hk
        rcases List.mem_cons.mp hk with rfl | h1
        · exact hql
        · exact lt_trans (hq k h1) hql
      · rename_i hpq hql
        have hpq' : p < q := lt_of_le_of_ne (not_lt.mp hql) hpq
        rw [sortedDesc]
        simp only [List.map_cons]
        refine List.Pairwise.cons ?_ (ih hrest)
        intro k hk
        rcases insertBidLevel_keys_mem hk with rfl | h1
        · exact hpq'
        · exact hq k h1

theorem insertBidLevel_neAll {p : Int} {o : Order} {levels : List (Int × Level)}
    (h : neAll levels) : neAll (insertBidLevel p o levels) := by
  induction levels with
  | nil =>
    intro e he
    rw [insertBidLevel] at he
    rcases List.mem_cons.mp he with rfl | h1
    · simp
    · simp at h1
  | cons e₀ rest ih =>
    obtain ⟨q, l⟩ := e₀
    intro e he
    rw [insertBidLevel] at he
    split at he
    · rcases List.mem_cons.mp he with rfl | h1
      · simp
      · exact h e (List.mem_cons_of_mem _ h1)
    · split at he
      · rcases List.mem_cons.mp he with rfl | h1
        · simp
        · exact h e h1
      · rcases List.mem_cons.mp he with rfl | h1
        · exact h (q, l) (List.mem_cons_self _ _)
        · exact ih (fun e' he' => h e' (List.mem_cons_of_mem _ he')) e h1

theorem insertBidLevel_entry_mem {p : Int} {o : Order} {levels : List (Int × Level)}
    {e : Int × Level} (he : e ∈ insertBidLevel p o levels) :
    e ∈ levels ∨ e = (p, [o]) ∨ ∃ l, e = (p, l ++ [o]) ∧ (p, l) ∈ levels := by
  induction levels with
  | nil =>
    rw [insertBidLevel] at he
    rcases List.mem_cons.mp he with rfl | h1
    · exact Or.inr (Or.inl rfl)
    · simp at h1
  | cons e₀ rest ih =>
    obtain ⟨q, l⟩ := e₀
    rw [insertBidLevel] at he
    split at he
    · rename_i hpq
      subst hpq
      rcases List.mem_cons.mp he with rfl | h1
      · exact Or.inr (Or.inr ⟨l, rfl, List.mem_cons_self _ _⟩)
      · exact Or.inl (List.mem_cons_of_mem _ h1)
    · split at he
      · rcases List.mem_cons.mp he with rfl | h1
        · exact Or.inr (Or.inl rfl)
        · exact Or.inl h1
      · rcases List.mem_cons.mp he with rfl | h1
        · exact Or.inl (List.mem_cons_self _ _)
        · rcases ih h1 with h2 | h2 | ⟨l', hl', h2⟩
          · exact Or.inl (List.mem_cons_of_mem _ h2)
          · exact Or.inr (Or.inl h2)
          · exact Or.inr (Or.inr ⟨l', hl', List.mem_cons_of_mem _ h2⟩)

theorem insertBidLevel_orders_perm (p : Int) (o : Order) (levels : List (Int × Level)) :
    List.Perm (levelOrders (insertBidLevel p o levels)) (o :: levelOrders levels) := by
  induction levels with
  | nil => simp [insertBidLevel, levelOrders]
  | cons e rest ih =>
    obtain ⟨q, l⟩ := e
    rw [insertBidLevel]
    split
    · rw [levelOrders_cons, levelOrders_cons]
      simp only [List.append_assoc, List.singleton_append]
      exact List.perm_middle
    · split
      · rw [levelOrders_cons, levelOrders_cons]
        simp only [List.singleton_append]
        exact List.Perm.refl _
      · rw [levelOrders_cons, levelOrders_cons]
        exact (List.Perm.append_left l ih).trans List.perm_middle

theorem insertAskLevel_keys_mem {p : Int} {o : Order} {levels : List (Int × Level)} {k : Int}
    (h : k ∈ (insertAskLevel p o levels).map Prod.fst) : k = p ∨ k ∈ levels.map Prod.fst := by
  induction levels with
  | nil =>
    rw [insertAskLevel] at h
    simp only [List.map_cons, List.map_nil] at h
    rcases List.mem_cons.mp h with h1 | h1
    · exact Or.inl h1
    · simp at h1
  | cons e rest ih =>
    obtain ⟨q, l⟩ := e
    rw [insertAskLevel] at h
    split at h
    · simp only [List.map_cons] at h ⊢
      exact Or.inr h
    · split at h
      · simp only [List.map_cons] at h ⊢
        rcases List.mem_cons.mp h with h1 | h1
        · exact Or.inl h1
        · exact Or.inr h1
      · simp only [List.map_cons] at h ⊢
        rcases List.mem_cons.mp h with h1 | h1
        · exact Or.inr (List.mem_cons.mpr (Or.inl h1))
        · rcases ih h1 with h2 | h2
          · exact Or.inl h2
          · exact Or.inr (List.mem_cons.mpr (Or.inr h2))

theorem insertAskLevel_sortedAsc {p : Int} {o : Order} {levels : List (Int × Level)}
    (h : sortedAsc levels) : sortedAsc (insertAskLevel p o levels) := by
  induction levels with
  | nil => simp [insertAskLevel, sortedAsc]
  | cons e rest ih =>
    obtain ⟨q, l⟩ := e
    obtain ⟨hq, hrest⟩ := sortedAsc_cons h
    rw [insertAskLevel]
    split
    · exact h
    · split
      · rename_i hpq hql
        rw [sortedAsc] at h ⊢
        simp only [List.map_cons] at h ⊢
        refine List.Pairwise.cons ?_ h
        intro k hk
        rcases List.mem_cons.mp hk with rfl | h1
        · exact hql
        · exact lt_trans hql (hq k h1)
      · rename_i hpq hql
        have hpq' : q < p := lt_of_le_of_ne (not_lt.mp hql) (fun h' => hpq h'.symm)
        rw [sortedAsc]
        simp only [List.map_cons]
        refine List.Pairwise.cons ?_ (ih hrest)
        intro k hk
        rcases insertAskLevel_keys_mem hk with rfl | h1
        · exact hpq'
        · exact hq k h1

theorem insertAskLevel_neAll {p : Int} {o : Order} {levels : List (Int × Level)}
    (h : neAll levels) : neAll (insertAskLevel p o levels) := by
  induction levels with
  | nil =>
    intro e he
    rw [insertAskLevel] at he
    rcases List.mem_cons.mp he with rfl | h1
    · simp
    · simp at h1
  | cons e₀ rest ih =>
    obtain ⟨q, l⟩ := e₀
    intro e he
    rw [insertAskLevel] at he
    split at he
    · rcases List.mem_cons.mp he with rfl | h1
      · simp
      · exact h e (List.mem_cons_of_mem _ h1)
    · split at he
      · rcases List.mem_cons.mp he with rfl | h1
        · simp
        · exact h e h1
      · rcases List.mem_cons.mp he with rfl | h1
        · exact h (q, l) (List.mem_cons_self _ _)
        · exact ih (fun e' he' => h e' (List.mem_cons_of_mem _ he')) e h1

theorem insertAskLevel_entry_mem {p : Int} {o : Order} {levels : List (Int × Level)}
    {e : Int × Level} (he : e ∈ insertAskLevel p o levels) :
    e ∈ levels ∨ e = (p, [o]) ∨ ∃ l, e = (p, l ++ [o]) ∧ (p, l) ∈ levels := by
  induction levels with
  | nil =>
    rw [insertAskLevel] at he
    rcases List.mem_cons.mp he with rfl | h1
    · exact Or.inr (Or.inl rfl)
    · simp at h1
  | cons e₀ rest ih =>
    obtain ⟨q, l⟩ := e₀
    rw [insertAskLevel] at he
    split at he
    · rename_i hpq
      subst hpq
      rcases List.mem_cons.mp he with rfl | h1
      · exact Or.inr (Or.inr ⟨l, rfl, List.mem_cons_self _ _⟩)
      · exact Or.inl (List.mem_cons_of_mem _ h1)
    · split at he
      · rcases List.mem_cons.mp he with rfl | h1
        · exact Or.inr (Or.inl rfl)
        · exact Or.inl h1
      · rcases List.mem_cons.mp he with rfl | h1
        · exact Or.inl (List.mem_cons_self _ _)
        · rcases ih h1 with h2 | h2 | ⟨l', hl', h2⟩
          · exact Or.inl (List.mem_cons_of_mem _ h2)
          · exact Or.inr (Or.inl h2)
          · exact Or.inr (Or.inr ⟨l', hl', List.mem_cons_of_mem _ h2⟩)

theorem insertAskLevel_orders_perm (p : Int) (o : Order) (levels : List (Int × Level)) :
    List.Perm (levelOrders (insertAskLevel p o levels)) (o :: levelOrders levels) := by
  induction levels with
  | nil => simp [insertAskLevel, levelOrders]
  | cons e rest ih =>
    obtain ⟨q, l⟩ := e
    rw [insertAskLevel]
    split
    · rw [levelOrders_cons, levelOrders_cons]
      simp only [List.append_assoc, List.singleton_append]
      exact List.perm_middle
    · split
      · rw [levelOrders_cons, levelOrders_cons]
        simp only [List.singleton_append]
        exact List.Perm.refl _
      · rw [levelOrders_cons, levelOrders_cons]
        exact (List.Perm.append_left l ih).trans List.perm_middle

theorem insertBidLevel_nil (p : Int) (o : Order) : insertBidLevel p o [] = [(p, [o])] := rfl

theorem insertAskLevel_nil (p : Int) (o : Order) : insertAskLevel p o [] = [(p, [o])] := rfl

theorem insertBidLevel_head_gt {p : Int} {o : Order} {q : Int} {lq : Level}
    {rest : List (Int × Level)} (h : q < p) :
    insertBidLevel p o ((q, lq) :: rest) = (p, [o]) :: (q, lq) :: rest := by
  rw [insertBidLevel, if_neg (ne_of_gt h), if_pos h]

theorem insertAskLevel_head_lt {p : Int} {o : Order} {q : Int} {lq : Level}
    {rest : List (Int × Level)} (h : p < q) :
    insertAskLevel p o ((q, lq) :: rest) = (p, [o]) :: (q, lq) :: rest := by
  rw [insertAskLevel, if_neg (ne_of_lt h), if_pos h]

/-! ## Effect of the enqueue step -/

theorem enqueue_data (s : OrderBookState) (o : Order) :
    (enqueueOrder s o).data_ = OrderBook.OnOrderAdded s.data_ o := by
  by_cases hs : o.side_ = Side.Buy <;> simp [enqueueOrder, hs]

theorem enqueue_orders (s : OrderBookState) (o : Order) :
    (enqueueOrder s o).orders_ = (o.orderId_, o) :: s.orders_ := by
  by_cases hs : o.side_ = Side.Buy <;> simp [enqueueOrder, hs]

theorem enqueue_bids (s : OrderBookState) (o : Order) :
    (enqueueOrder s o).bids_ =
      (if o.side_ = Side.Buy then insertBidLevel o.price_ o s.bids_ else s.bids_) := by
  by_cases hs : o.side_ = Side.Buy <;> simp [enqueueOrder, hs]

theorem enqueue_asks (s : OrderBookState) (o : Order) :
    (enqueueOrder s o).asks_ =
      (if o.side_ = Side.Buy then s.asks_ else insertAskLevel o.price_ o s.asks_) := by
  by_cases hs : o.side_ = Side.Buy <;> simp [enqueueOrder, hs]

theorem enqueue_allOrders_perm (s : OrderBookState) (o : Order) :
    List.Perm (allOrders (enqueueOrder s o)) (o :: allOrders s) := by
  by_cases hs : o.side_ = Side.Buy
  · rw [allOrders, bidOrders, askOrders, enqueue_bids, enqueue_asks, if_pos hs, if_pos hs]
    rw [allOrders, bidOrders, askOrders]
    exact (insertBidLevel_orders_perm o.price_ o s.bids_).append_right _
  · rw [allOrders, bidOrders, askOrders, enqueue_bids, enqueue_asks, if_neg hs, if_neg hs]
    rw [allOrders, bidOrders, askOrders]
    exact ((insertAskLevel_orders_perm o.price_ o s.asks_).append_left _).trans List.perm_middle

theorem fresh_id_not_mem {s : OrderBookState} {o : Order} (hwf : BookWF s)
    (hfresh : lookupOrders s.orders_ o.orderId_ = none) :
    o.orderId_ ∉ (allOrders s).map Order.orderId_ := by
  intro hmem
  obtain ⟨o'', ho'', hid⟩ := List.mem_map.mp hmem
  obtain ⟨e₀, he₀, _⟩ := hwf.idx o'' ho''
  rw [hid] at he₀
  rw [he₀] at hfresh
  exact Option.noConfusion hfresh

theorem enqueue_BookWF {s : OrderBookState} {o : Order} (hwf : BookWF s)
    (hfresh : lookupOrders s.orders_ o.orderId_ = none) :
    BookWF (enqueueOrder s o) := by
  have hperm := enqueue_allOrders_perm s o
  have hids : List.Perm ((allOrders (enqueueOrder s o)).map Order.orderId_)
      (o.orderId_ :: (allOrders s).map Order.orderId_) := hperm.map _
  refine ⟨?_, ?_, ?_, ?_, ?_, ?_, ?_, ?_, ?_, ?_⟩
  · rw [sortedDesc, enqueue_bids]
    split
    · exact insertBidLevel_sortedDesc hwf.sortedBids
    · exact hwf.sortedBids
  · rw [sortedAsc, enqueue_asks]
    split
    · exact hwf.sortedAsks
    · exact insertAskLevel_sortedAsc hwf.sortedAsks
  · rw [neAll, enqueue_bids]
    split
    · exact insertBidLevel_neAll hwf.neBids
    · exact hwf.neBids
  · rw [neAll, enqueue_asks]
    split
    · exact hwf.neAsks
    · exact insertAskLevel_neAll hwf.neAsks
  · rw [priceAll, enqueue_bids]
    split
    · intro e he o' ho'
      rcases insertBidLevel_entry_mem he with h1 | h1 | ⟨l, hl, h1⟩
      · exact hwf.priceBids e h1 o' ho'
      · subst h1
        rcases List.mem_cons.mp ho' with rfl | h2
        · rfl
        · simp at h2
      · subst hl
        rcases List.mem_append.mp ho' with h2 | h2
        · exact hwf.priceBids (o.price_, l) h1 o' h2
        · rcases List.mem_cons.mp h2 with rfl | h3
          · rfl
          · simp at h3
    · exact hwf.priceBids
  · rw [priceAll, enqueue_asks]
    split
    · exact hwf.priceAsks
    · intro e he o' ho'
      rcases insertAskLevel_entry_mem he with h1 | h1 | ⟨l, hl, h1⟩
      · exact hwf.priceAsks e h1 o' ho'
      · subst h1
        rcases List.mem_cons.mp ho' with rfl | h2
        · rfl
        · simp at h2
      · subst hl
        rcases List.mem_append.mp ho' with h2 | h2
        · exact hwf.priceAsks (o.price_, l) h1 o' h2
        · rcases List.mem_cons.mp h2 with rfl | h3
          · rfl
          · simp at h3
  · rw [sideAll, enqueue_bids]
    split
    · rename_i hbuy
      intro e he o' ho'
      rcases insertBidLevel_entry_mem he with h1 | h1 | ⟨l, hl, h1⟩
      · exact hwf.sideBids e h1 o' ho'
      · subst h1
        rcases List.mem_cons.mp ho' with rfl | h2
        · exact hbuy
        · simp at h2
      · subst hl
        rcases List.mem_append.mp ho' with h2 | h2
        · exact hwf.sideBids (o.price_, l) h1 o' h2
        · rcases List.mem_cons.mp h2 with rfl | h3
          · exact hbuy
          · simp at h3
    · exact hwf.sideBids
  · rw [sideAll, enqueue_asks]
    split
    · exact hwf.sideAsks
    · rename_i hbuy
      have hsell : o.side_ = Side.Sell := by
        rcases hso : o.side_ with _ | _
        · exact absurd hso hbuy
        · rfl
      intro e he o' ho'
      rcases insertAskLevel_entry_mem he with h1 | h1 | ⟨l, hl, h1⟩
      · exact hwf.sideAsks e h1 o' ho'
      · subst h1
        rcases List.mem_cons.mp ho' with rfl | h2
        · exact hsell
        · simp at h2
      · subst hl
        rcases List.mem_append.mp ho' with h2 | h2
        · exact hwf.sideAsks (o.price_, l) h1 o' h2
        · rcases List.mem_cons.mp h2 with rfl | h3
          · exact hsell
          · simp at h3
  · rw [hids.nodup_iff]
    exact List.nodup_cons.mpr ⟨fresh_id_not_mem hwf hfresh, hwf.nodupIds⟩
  · intro o'' ho''
    rcases List.mem_cons.mp (hperm.subset ho'') with rfl | hold
    · rw [enqueue_orders, lookupOrders_cons_self]
      exact ⟨o'', rfl, rfl⟩
    · obtain ⟨e₀, he₀, hsig⟩ := hwf.idx o'' hold
      have hne : o.orderId_ ≠ o''.orderId_ := by
        intro heq
        exact fresh_id_not_mem hwf hfresh (heq ▸ List.mem_map_of_mem Order.orderId_ hold)
      rw [enqueue_orders, lookupOrders_cons_ne _ _ hne]
      exact ⟨e₀, he₀, hsig⟩

/-! ## Location of a just-enqueued FillAndKill order -/

theorem enqueue_bids_fak_head {s : OrderBookState} {o : Order} (hwf : BookWF s)
    (hnc : NotCrossed s) (hbuy : o.side_ = Side.Buy)
    (hcm : OrderBook.CanMatch s Side.Buy o.price_ = true) :
    (enqueueOrder s o).bids_ = (o.price_, [o]) :: s.bids_ := by
  rw [enqueue_bids, if_pos hbuy]
  rcases hsa : s.asks_ with _ | ⟨⟨bestAsk, la⟩, restA⟩
  · rw [OrderBook.CanMatch, hsa] at hcm
    exact Bool.noConfusion hcm
  have hpa : bestAsk ≤ o.price_ := by
    rw [OrderBook.CanMatch, hsa] at hcm
    exact of_decide_eq_true hcm
  rcases hsb : s.bids_ with _ | ⟨⟨q, lq⟩, restB⟩
  · rw [insertBidLevel_nil]
  have hq : q < bestAsk := hnc q lq bestAsk la (by rw [hsb]; rfl) (by rw [hsa]; rfl)
  exact insertBidLevel_head_gt (lt_of_lt_of_le hq hpa)

theorem enqueue_asks_fak_head {s : OrderBookState} {o : Order} (hwf : BookWF s)
    (hnc : NotCrossed s) (hsell : o.side_ = Side.Sell)
    (hcm : OrderBook.CanMatch s Side.Sell o.price_ = true) :
    (enqueueOrder s o).asks_ = (o.price_, [o]) :: s.asks_ := by
  have hnb : ¬ (o.side_ = Side.Buy) := by rw [hsell]; exact fun h => Side.noConfusion h
  rw [enqueue_asks, if_neg hnb]
  rcases hsb : s.bids_ with _ | ⟨⟨bestBid, lb⟩, restB⟩
  · rw [OrderBook.CanMatch, hsb] at hcm
    exact Bool.noConfusion hcm
  have hpb : o.price_ ≤ bestBid := by
    rw [OrderBook.CanMatch, hsb] at hcm
    exact of_decide_eq_true hcm
  rcases hsa : s.asks_ with _ | ⟨⟨q, lq⟩, restA⟩
  · rw [insertAskLevel_nil]
  have hq : bestBid < q := hnc bestBid lb q lq (by rw [hsb]; rfl) (by rw [hsa]; rfl)
  exact insertAskLevel_head_lt (lt_of_le_of_lt hpb hq)

theorem FAKloc_of_noFakAnywhere {s : OrderBookState}
    (h : ∀ o ∈ allOrders s, o.orderType_ ≠ OrderType.FillAndKill) : FAKloc s := by
  constructor
  · intro o ho hfak
    exact absurd hfak (h o (List.mem_append.mpr (Or.inl ho)))
  · intro o ho hfak
    exact absurd hfak (h o (List.mem_append.mpr (Or.inr ho)))

theorem enqueue_FAKloc_not_fak {s : OrderBookState} {o : Order} (hnofak : NoFAK s)
    (h : o.orderType_ ≠ OrderType.FillAndKill) : FAKloc (enqueueOrder s o) := by
  refine FAKloc_of_noFakAnywhere fun o' ho' => ?_
  rcases List.mem_cons.mp ((enqueue_allOrders_perm s o).subset ho') with rfl | hold
  · exact h
  · exact hnofak o' hold

theorem enqueue_FAKloc_fak_buy {s : OrderBookState} {o : Order} (hwf : BookWF s)
    (hnc : NotCrossed s) (hnofak : NoFAK s) (hbuy : o.side_ = Side.Buy)
    (hcm : OrderBook.CanMatch s Side.Buy o.price_ = true) :
    FAKloc (enqueueOrder s o) := by
  constructor
  · intro o' ho' hfak
    rw [enqueue_bids_fak_head hwf hnc hbuy hcm, levelOrders_cons] at ho'
    rcases List.mem_append.mp ho' with h1 | h1
    · rcases List.mem_cons.mp h1 with rfl | h2
      · exact ⟨s.bids_, by rw [enqueue_bids_fak_head hwf hnc hbuy hcm]⟩
      · simp at h2
    · exact absurd hfak (hnofak o' (List.mem_append.mpr (Or.inl h1)))
  · intro o' ho' hfak
    rw [enqueue_asks, if_pos hbuy] at ho'
    exact absurd hfak (hnofak o' (List.mem_append.mpr (Or.inr ho')))

theorem enqueue_FAKloc_fak_sell {s : OrderBookState} {o : Order} (hwf : BookWF s)
    (hnc : NotCrossed s) (hnofak : NoFAK s) (hsell : o.side_ = Side.Sell)
    (hcm : OrderBook.CanMatch s Side.Sell o.price_ = true) :
    FAKloc (enqueueOrder s o) := by
  have hnb : ¬ (o.side_ = Side.Buy) := by rw [hsell]; exact fun h => Side.noConfusion h
  constructor
  · intro o' ho' hfak
    rw [enqueue_bids, if_neg hnb] at ho'
    exact absurd hfak (hnofak o' (List.mem_append.mpr (Or.inl ho')))
  · intro o' ho' hfak
    rw [enqueue_asks_fak_head hwf hnc hsell hcm, levelOrders_cons] at ho'
    rcases List.mem_append.mp ho' with h1 | h1
    · rcases List.mem_cons.mp h1 with rfl | h2
      · exact ⟨s.asks_, by rw [enqueue_asks_fak_head hwf hnc hsell hcm]⟩
      · simp at h2
    · exact absurd hfak (hnofak o' (List.mem_append.mpr (Or.inr h1)))

/-! ## The residual-FAK sweep -/

theorem removeFromLevels_singleton_head (o : Order) (rest : List (Int × Level)) :
    removeFromLevels ((o.price_, [o]) :: rest) o.price_ o.orderId_ = rest := by
  rw [removeFromLevels, lookupLevel_cons_self]
  simp only [List.filter_cons, List.filter_nil]
  simp [eraseLevelKey_cons_self]

theorem cancel_fak_head_bid {s : OrderBookState} {o : Order} {rest : List (Int × Level)}
    (hbids : s.bids_ = (o.price_, [o]) :: rest)
    (hidx : ∃ o₀, lookupOrders s.orders_ o.orderId_ = some o₀ ∧ osig o₀ = osig o)
    (hside : o.side_ = Side.Buy) :
    OrderBook.CancelOrderInternals s o.orderId_ =
      { data_ := s.data_, asks_ := s.asks_, bids_ := rest,
        orders_ := eraseOrders s.orders_ o.orderId_ } := by
  obtain ⟨o₀, hlk, hsig⟩ := hidx
  have hs : o₀.side_ = Side.Buy := by rw [(osig_eq_iff.mp hsig).2.2.1, hside]
  have hp : o₀.price_ = o.price_ := (osig_eq_iff.mp hsig).2.2.2
  rw [OrderBook.CancelOrderInternals, hlk]
  simp only [hs, hp]
  rw [if_neg (show ¬ (Side.Buy = Side.Sell) by decide)]
  simp only [if_true]
  rw [hbids, removeFromLevels_singleton_head]

theorem cancel_fak_head_ask {s : OrderBookState} {o : Order} {rest : List (Int × Level)}
    (hasks : s.asks_ = (o.price_, [o]) :: rest)
    (hidx : ∃ o₀, lookupOrders s.orders_ o.orderId_ = some o₀ ∧ osig o₀ = osig o)
    (hside : o.side_ = Side.Sell) :
    OrderBook.CancelOrderInternals s o.orderId_ =
      { data_ := s.data_, asks_ := rest, bids_ := s.bids_,
        orders_ := eraseOrders s.orders_ o.orderId_ } := by
  obtain ⟨o₀, hlk, hsig⟩ := hidx
  have hs : o₀.side_ = Side.Sell := by rw [(osig_eq_iff.mp hsig).2.2.1, hside]
  have hp : o₀.price_ = o.price_ := (osig_eq_iff.mp hsig).2.2.2
  rw [OrderBook.CancelOrderInternals, hlk]
  simp only [hs, hp]
  rw [if_neg (show ¬ (Side.Sell = Side.Buy) by decide)]
  simp only [if_true]
  rw [hasks, removeFromLevels_singleton_head]

theorem sweepBidFAK_eq_cancel {s : OrderBookState} {p : Int} {order : Order} {lrest : Level}
    {rest : List (Int × Level)} (h : s.bids_ = (p, order :: lrest) :: rest)
    (hfak : order.orderType_ = OrderType.FillAndKill) :
    sweepBidFAK s = OrderBook.CancelOrder s order.orderId_ := by
  rw [sweepBidFAK, h]
  simp only [hfak, reduceIte]

theorem sweepBidFAK_eq_self_notfak {s : OrderBookState} {p : Int} {order : Order}
    {lrest : Level} {rest : List (Int × Level)} (h : s.bids_ = (p, order :: lrest) :: rest)
    (hnot : ¬ (order.orderType_ = OrderType.FillAndKill)) : sweepBidFAK s = s := by
  rw [sweepBidFAK, h]
  simp only [hnot, reduceIte]

theorem sweepBidFAK_eq_self_nil {s : OrderBookState} (h : s.bids_ = []) :
    sweepBidFAK s = s := by
  rw [sweepBidFAK, h]

theorem sweepBidFAK_eq_self_empty_level {s : OrderBookState} {p : Int}
    {rest : List (Int × Level)} (h : s.bids_ = (p, []) :: rest) : sweepBidFAK s = s := by
  rw [sweepBidFAK, h]

theorem sweepAskFAK_eq_cancel {s : OrderBookState} {p : Int} {order : Order} {lrest : Level}
    {rest : List (Int × Level)} (h : s.asks_ = (p, order :: lrest) :: rest)
    (hfak : order.orderType_ = OrderType.FillAndKill) :
    sweepAskFAK s = OrderBook.CancelOrder s order.orderId_ := by
  rw [sweepAskFAK, h]
  simp only [hfak, reduceIte]

theorem sweepAskFAK_eq_self_notfak {s : OrderBookState} {p : Int} {order : Order}
    {lrest : Level} {rest : List (Int × Level)} (h : s.asks_ = (p, order :: lrest) :: rest)
    (hnot : ¬ (order.orderType_ = OrderType.FillAndKill)) : sweepAskFAK s = s := by
  rw [sweepAskFAK, h]
  simp only [hnot, reduceIte]

theorem sweepAskFAK_eq_self_nil {s : OrderBookState} (h : s.asks_ = []) :
    sweepAskFAK s = s := by
  rw [sweepAskFAK, h]

theorem sweepAskFAK_eq_self_empty_level {s : OrderBookState} {p : Int}
    {rest : List (Int × Level)} (h : s.asks_ = (p, []) :: rest) : sweepAskFAK s = s := by
  rw [sweepAskFAK, h]

theorem sweepBidFAK_spec {s : OrderBookState} (hwf : BookWF s) (hfb : fakAtHead s.bids_) :
    BookWF (sweepBidFAK s) ∧
    (∀ o ∈ levelOrders (sweepBidFAK s).bids_, o.orderType_ ≠ OrderType.FillAndKill) ∧
    (sweepBidFAK s).asks_ = s.asks_ ∧
    (NotCrossed s → NotCrossed (sweepBidFAK s)) := by
  rcases hsb : s.bids_ with _ | ⟨⟨p, lvl⟩, rest⟩
  · rw [sweepBidFAK_eq_self_nil hsb]
    refine ⟨hwf, ?_, rfl, fun h => h⟩
    intro o ho
    rw [hsb] at ho
    simp [levelOrders] at ho
  rcases lvl with _ | ⟨front, lrest⟩
  · rw [sweepBidFAK_eq_self_empty_level hsb]
    refine ⟨hwf, ?_, rfl, fun h => h⟩
    intro o ho hfak
    obtain ⟨rest', hrest'⟩ := hfb o ho hfak
    rw [hsb] at hrest'
    obtain ⟨h1, -⟩ := List.cons.injEq .. ▸ hrest'
    exact List.noConfusion (congrArg Prod.snd (List.head_eq_of_cons_eq hrest')).symm
  by_cases hffak : front.orderType_ = OrderType.FillAndKill
  · -- front of the best bid level is a FAK: it is alone there, and gets cancelled
    obtain ⟨rest₂, hshape⟩ := hfb front (by rw [hsb, levelOrders_cons]; simp) hffak
    rw [hsb] at hshape
    have hp : p = front.price_ := (Prod.mk.injEq .. ▸ (List.head_eq_of_cons_eq hshape)).1
    have hlvl : front :: lrest = [front] :=
      (Prod.mk.injEq .. ▸ (List.head_eq_of_cons_eq hshape)).2
    have hrest : rest = rest₂ := List.tail_eq_of_cons_eq hshape
    have hlrest : lrest = [] := by
      have := congrArg List.tail hlvl
      simpa using this
    subst hlrest hp hrest
    have hmem : front ∈ allOrders s := by
      rw [allOrders]
      refine List.mem_append.mpr (Or.inl ?_)
      rw [bidOrders, hsb, levelOrders_cons]
      simp
    have hside : front.side_ = Side.Buy := hwf.sideBids _ (by rw [hsb]; exact List.mem_cons_self _ _) front (by simp)
    have hcancel := @cancel_fak_head_bid s front rest
      (by rw [hsb]) (hwf.idx front hmem) hside
    rw [sweepBidFAK_eq_cancel hsb hffak]
    rw [OrderBook.CancelOrder]
    refine ⟨cancel_BookWF hwf _, ?_, by rw [hcancel], fun hnc => cancel_NotCrossed hwf hnc _⟩
    intro o ho hfak
    rw [hcancel] at ho
    simp only at ho
    -- o is a FAK resting after the cancel: the head invariant forces o = front,
    -- but front's id occurs only at the removed head level
    obtain ⟨rest₃, hshape₃⟩ := hfb o (by rw [hsb, levelOrders_cons]; exact List.mem_append.mpr (Or.inr ho)) hfak
    rw [hsb] at hshape₃
    have : front = o := by
      have := (Prod.mk.injEq .. ▸ (List.head_eq_of_cons_eq hshape₃)).2
      injection this
    subst this
    have hrest₃ : rest = rest₃ := List.tail_eq_of_cons_eq hshape₃
    -- front appears both at the head level and inside the tail: duplicate id
    have hids := hwf.nodupIds
    rw [allOrders, bidOrders, hsb, levelOrders_cons] at hids
    simp only [List.singleton_append, List.map_cons, List.map_append] at hids
    have hfmem : front.orderId_ ∈ ((levelOrders rest).map Order.orderId_) :=
      List.mem_map_of_mem Order.orderId_ ho
    exact (List.nodup_cons.mp hids).1 (List.mem_append.mpr (Or.inl hfmem))
  · rw [sweepBidFAK_eq_self_notfak hsb hffak]
    refine ⟨hwf, ?_, rfl, fun h => h⟩
    intro o ho hfak
    obtain ⟨rest', hrest'⟩ := hfb o ho hfak
    rw [hsb] at hrest'
    have : front :: lrest = [o] := (Prod.mk.injEq .. ▸ (List.head_eq_of_cons_eq hrest')).2
    have hfo : front = o := by injection this
    exact hffak (hfo ▸ hfak)

theorem sweepAskFAK_spec {s : OrderBookState} (hwf : BookWF s) (hfa : fakAtHead s.asks_) :
    BookWF (sweepAskFAK s) ∧
    (∀ o ∈ levelOrders (sweepAskFAK s).asks_, o.orderType_ ≠ OrderType.FillAndKill) ∧
    (sweepAskFAK s).bids_ = s.bids_ ∧
    (NotCrossed s → NotCrossed (sweepAskFAK s)) := by
  rcases hsa : s.asks_ with _ | ⟨⟨p, lvl⟩, rest⟩
  · rw [sweepAskFAK_eq_self_nil hsa]
    refine ⟨hwf, ?_, rfl, fun h => h⟩
    intro o ho
    rw [hsa] at ho
    simp [levelOrders] at ho
  rcases lvl with _ | ⟨front, lrest⟩
  · rw [sweepAskFAK_eq_self_empty_level hsa]
    refine ⟨hwf, ?_, rfl, fun h => h⟩
    intro o ho hfak
    obtain ⟨rest', hrest'⟩ := hfa o ho hfak
    rw [hsa] at hrest'
    exact List.noConfusion (congrArg Prod.snd (List.head_eq_of_cons_eq hrest')).symm
  by_cases hffak : front.orderType_ = OrderType.FillAndKill
  · obtain ⟨rest₂, hshape⟩ := hfa front (by rw [hsa, levelOrders_cons]; simp) hffak
    rw [hsa] at hshape
    have hp : p = front.price_ := (Prod.mk.injEq .. ▸ (List.head_eq_of_cons_eq hshape)).1
    have hlvl : front :: lrest = [front] :=
      (Prod.mk.injEq .. ▸ (List.head_eq_of_cons_eq hshape)).2
    have hrest : rest = rest₂ := List.tail_eq_of_cons_eq hshape
    have hlrest : lrest = [] := by
      have := congrArg List.tail hlvl
      simpa using this
    subst hlrest hp hrest
    have hmem : front ∈ allOrders s := by
      rw [allOrders]
      refine List.mem_append.mpr (Or.inr ?_)
      rw [askOrders, hsa, levelOrders_cons]
      simp
    have hside : front.side_ = Side.Sell := hwf.sideAsks _ (by rw [hsa]; exact List.mem_cons_self _ _) front (by simp)
    have hcancel := @cancel_fak_head_ask s front rest
      (by rw [hsa]) (hwf.idx front hmem) hside
    rw [sweepAskFAK_eq_cancel hsa hffak]
    rw [OrderBook.CancelOrder]
    refine ⟨cancel_BookWF hwf _, ?_, by rw [hcancel], fun hnc => cancel_NotCrossed hwf hnc _⟩
    intro o ho hfak
    rw [hcancel] at ho
    simp only at ho
    obtain ⟨rest₃, hshape₃⟩ := hfa o (by rw [hsa, levelOrders_cons]; exact List.mem_append.mpr (Or.inr ho)) hfak
    rw [hsa] at hshape₃
    have : front = o := by
      have := (Prod.mk.injEq .. ▸ (List.head_eq_of_cons_eq hshape₃)).2
      injection this
    subst this
    have hids := hwf.nodupIds
    rw [allOrders, askOrders, hsa, levelOrders_cons] at hids
    simp only [List.singleton_append, List.map_cons, List.map_append] at hids
    have hfmem : front.orderId_ ∈ ((levelOrders rest).map Order.orderId_) :=
      List.mem_map_of_mem Order.orderId_ ho
    -- the ask-side ids sit to the right of the bid-side ids; extract nodup of that part
    have hidsAsk : (front.orderId_ :: (levelOrders rest).map Order.orderId_).Nodup := by
      have h2 := List.Nodup.sublist (List.sublist_append_right ((bidOrders s).map Order.orderId_) _) hids
      exact h2
    exact (List.nodup_cons.mp hidsAsk).1 hfmem
  · rw [sweepAskFAK_eq_self_notfak hsa hffak]
    refine ⟨hwf, ?_, rfl, fun h => h⟩
    intro o ho hfak
    obtain ⟨rest', hrest'⟩ := hfa o ho hfak
    rw [hsa] at hrest'
    have : front :: lrest = [o] := (Prod.mk.injEq .. ▸ (List.head_eq_of_cons_eq hrest')).2
    have hfo : front = o := by injection this
    exact hffak (hfo ▸ hfak)

/-! ## Facts about one inner matching step -/

theorem shrink_sigs {p : Int} {bid bid' : Order} {bidsRest : Level}
    {restB : List (Int × Level)} (hsig : osig bid' = osig bid) {nl : Level}
    (hnl : nl = bidsRest ∨ nl = bid' :: bidsRest) :
    List.Sublist ((levelOrders (if nl = [] then restB else (p, nl) :: restB)).map osig)
      ((levelOrders ((p, bid :: bidsRest) :: restB)).map osig) := by
  rw [levelOrders_shrink, levelOrders_cons, List.map_append, List.map_append]
  rcases hnl with rfl | rfl
  · rw [List.map_cons]
    exact List.Sublist.append (List.sublist_cons_self _ _) (List.Sublist.refl _)
  · rw [List.map_cons, List.map_cons, hsig]

theorem shrink_priceAll {p : Int} {bid bid' : Order} {bidsRest : Level}
    {restB : List (Int × Level)} (hold : priceAll ((p, bid :: bidsRest) :: restB))
    (hpr : bid'.price_ = bid.price_) {nl : Level}
    (hnl : nl = bidsRest ∨ nl = bid' :: bidsRest) :
    priceAll (if nl = [] then restB else (p, nl) :: restB) := by
  have hbidp : bid.price_ = p := hold (p, bid :: bidsRest) (List.mem_cons_self _ _) bid (by simp)
  have hrest : ∀ o ∈ bidsRest, o.price_ = p :=
    fun o ho => hold (p, bid :: bidsRest) (List.mem_cons_self _ _) o (List.mem_cons_of_mem _ ho)
  split
  · exact fun e he o ho => hold e (List.mem_cons_of_mem _ he) o ho
  · intro e he o ho
    rcases List.mem_cons.mp he with rfl | h1
    · rcases hnl with rfl | rfl
      · exact hrest o ho
      · rcases List.mem_cons.mp ho with rfl | h2
        · rw [hpr, hbidp]
        · exact hrest o h2
    · exact hold e (List.mem_cons_of_mem _ h1) o ho

theorem shrink_sideAll {p : Int} {bid bid' : Order} {bidsRest : Level}
    {restB : List (Int × Level)} {sd : Side}
    (hold : sideAll ((p, bid :: bidsRest) :: restB) sd)
    (hsd : bid'.side_ = bid.side_) {nl : Level}
    (hnl : nl = bidsRest ∨ nl = bid' :: bidsRest) :
    sideAll (if nl = [] then restB else (p, nl) :: restB) sd := by
  have hbs : bid.side_ = sd := hold (p, bid :: bidsRest) (List.mem_cons_self _ _) bid (by simp)
  have hrest : ∀ o ∈ bidsRest, o.side_ = sd :=
    fun o ho => hold (p, bid :: bidsRest) (List.mem_cons_self _ _) o (List.mem_cons_of_mem _ ho)
  split
  · exact fun e he o ho => hold e (List.mem_cons_of_mem _ he) o ho
  · intro e he o ho
    rcases List.mem_cons.mp he with rfl | h1
    · rcases hnl with rfl | rfl
      · exact hrest o ho
      · rcases List.mem_cons.mp ho with rfl | h2
        · rw [hsd, hbs]
        · exact hrest o h2
    · exact hold e (List.mem_cons_of_mem _ h1) o ho

theorem fak_shrink {p : Int} {bid bid' : Order} {bidsRest : Level}
    {restB : List (Int × Level)} (hsig : osig bid' = osig bid) {nl : Level}
    (hnl : nl = bidsRest ∨ nl = bid' :: bidsRest)
    (hfb : fakAtHead ((p, bid :: bidsRest) :: restB))
    (hnodup : ((bid :: (bidsRest ++ levelOrders restB)).map Order.orderId_).Nodup) :
    fakAtHead (if nl = [] then restB else (p, nl) :: restB) := by
  have hmemOld : ∀ o : Order, o ∈ bidsRest ∨ o ∈ levelOrders restB ∨ o = bid →
      o ∈ levelOrders ((p, bid :: bidsRest) :: restB) := by
    intro o h
    rw [levelOrders_cons]
    rcases h with h | h | rfl
    · exact List.mem_append.mpr (Or.inl (List.mem_cons_of_mem _ h))
    · exact List.mem_append.mpr (Or.inr h)
    · exact List.mem_append.mpr (Or.inl (List.mem_cons_self _ _))
  have hsingleton : ∀ o : Order, o ∈ levelOrders ((p, bid :: bidsRest) :: restB) →
      o.orderType_ = OrderType.FillAndKill → bid = o ∧ bidsRest = [] ∧ p = o.price_ := by
    intro o hmem hfak
    obtain ⟨rest', hr⟩ := hfb o hmem hfak
    have hh : (p, bid :: bidsRest) = (o.price_, [o]) := List.head_eq_of_cons_eq hr
    have hp' : p = o.price_ := congrArg Prod.fst hh
    have hl' : bid :: bidsRest = [o] := congrArg Prod.snd hh
    have hl2 : bid = o ∧ bidsRest = [] := by
      injection hl' with h1 h2
      exact ⟨h1, h2⟩
    exact ⟨hl2.1, hl2.2, hp'⟩
  have hNotInRest : bid ∉ levelOrders restB := by
    intro hmem
    have hm : bid.orderId_ ∈ (bidsRest ++ levelOrders restB).map Order.orderId_ :=
      List.mem_map_of_mem Order.orderId_ (List.mem_append.mpr (Or.inr hmem))
    rw [List.map_cons] at hnodup
    exact (List.nodup_cons.mp hnodup).1 hm
  intro o ho hfak
  rw [levelOrders_shrink, List.mem_append] at ho
  rcases ho with hoNl | hoRest
  · rcases hnl with rfl | rfl
    · obtain ⟨hb, hbr, hp'⟩ := hsingleton o (hmemOld o (Or.inl hoNl)) hfak
      rw [hbr] at hoNl
      exact absurd hoNl (List.not_mem_nil o)
    · rcases List.mem_cons.mp hoNl with rfl | h2
      · have hfakBid : bid.orderType_ = OrderType.FillAndKill := by
          rw [← (osig_eq_iff.mp hsig).2.1]
          exact hfak
        obtain ⟨hb, hbr, hp'⟩ := hsingleton bid
          (hmemOld bid (Or.inr (Or.inr rfl))) hfakBid
        subst hbr
        have hop : o.price_ = p := by
          rw [(osig_eq_iff.mp hsig).2.2.2, ← hp']
        rw [if_neg (List.cons_ne_nil o [])]
        refine ⟨restB, ?_⟩
        rw [hop]
      · obtain ⟨hb, hbr, hp'⟩ := hsingleton o (hmemOld o (Or.inl h2)) hfak
        rw [hbr] at h2
        exact absurd h2 (List.not_mem_nil o)
  · obtain ⟨hb, hbr, hp'⟩ := hsingleton o (hmemOld o (Or.inr (Or.inl hoRest))) hfak
    exact absurd (hb ▸ hoRest) hNotInRest

theorem pair_mem_of_sigs_sublist {l₁ l₂ : List Order}
    (h : List.Sublist (l₁.map osig) (l₂.map osig)) {x : Nat × Int}
    (hx : x ∈ l₁.map (fun o => (o.orderId_, o.price_))) :
    x ∈ l₂.map (fun o => (o.orderId_, o.price_)) := by
  have hrw : ∀ l : List Order, l.map (fun o => (o.orderId_, o.price_)) =
      (l.map osig).map (fun g => (g.1, g.2.2.2)) := by
    intro l
    rw [List.map_map]
    rfl
  rw [hrw] at hx ⊢
  exact (List.Sublist.map _ h).subset hx

theorem ids_step_sub {bidId askId : Nat} {X Y X' Y' : List Nat}
    (hX : X' = X ∨ X' = bidId :: X) (hY : Y' = Y ∨ Y' = askId :: Y) :
    List.Sublist (X' ++ Y') (bidId :: (X ++ askId :: Y)) := by
  rcases hX with rfl | rfl <;> rcases hY with rfl | rfl
  · exact ((List.Sublist.append (List.Sublist.refl _)
      (List.sublist_cons_self _ _)).trans (List.sublist_cons_self _ _))
  · exact List.sublist_cons_self _ _
  · exact List.Sublist.cons₂ _ (List.Sublist.append (List.Sublist.refl _)
      (List.sublist_cons_self _ _))
  · exact List.Sublist.cons₂ _ (List.Sublist.refl _)

theorem ids_step_bid_notmem {bidId askId : Nat} {X Y Y' : List Nat}
    (hnodup : (bidId :: (X ++ askId :: Y)).Nodup) (hY : Y' = Y ∨ Y' = askId :: Y) :
    bidId ∉ (X ++ Y') := by
  have h1 : bidId ∉ X ++ askId :: Y := (List.nodup_cons.mp hnodup).1
  intro hmem
  rcases List.mem_append.mp hmem with h2 | h2
  · exact h1 (List.mem_append.mpr (Or.inl h2))
  · rcases hY with rfl | rfl
    · exact h1 (List.mem_append.mpr (Or.inr (List.mem_cons_of_mem _ h2)))
    · exact h1 (List.mem_append.mpr (Or.inr h2))

theorem ids_step_ask_notmem {bidId askId : Nat} {X Y X' : List Nat}
    (hnodup : (bidId :: (X ++ askId :: Y)).Nodup) (hX : X' = X ∨ X' = bidId :: X) :
    askId ∉ (X' ++ Y) := by
  have h0 := List.nodup_cons.mp hnodup
  have h1 : askId ∉ X ++ Y := by
    have hmid := List.nodup_middle.mp h0.2
    exact (List.nodup_cons.mp hmid).1
  have h2 : bidId ≠ askId := by
    intro heq
    exact h0.1 (List.mem_append.mpr (Or.inr (heq ▸ List.mem_cons_self _ _)))
  intro hmem
  rcases List.mem_append.mp hmem with h3 | h3
  · rcases hX with rfl | rfl
    · exact h1 (List.mem_append.mpr (Or.inl h3))
    · rcases List.mem_cons.mp h3 with h4 | h4
      · exact h2 h4.symm
      · exact h1 (List.mem_append.mpr (Or.inl h4))
  · exact h1 (List.mem_append.mpr (Or.inr h3))

/-! ## The matching loop: invariant bundle -/

/-- What one run (zero or more steps) of the matching loop guarantees,
relating the state and trade accumulator before (`s`, `acc`) and after
(`s'`, `tr`). -/
structure StepOut (s s' : OrderBookState) (acc tr : List Trade) : Prop where
  wf : BookWF s'
  sigB : List.Sublist ((levelOrders s'.bids_).map osig) ((levelOrders s.bids_).map osig)
  sigA : List.Sublist ((levelOrders s'.asks_).map osig) ((levelOrders s.asks_).map osig)
  fak : FAKloc s → FAKloc s'
  trades : ∀ t ∈ tr, t ∈ acc ∨
    ((t.bidTrade_.orderId_, t.bidTrade_.price_) ∈
        (levelOrders s.bids_).map (fun o => (o.orderId_, o.price_)) ∧
      (t.askTrade_.orderId_, t.askTrade_.price_) ∈
        (levelOrders s.asks_).map (fun o => (o.orderId_, o.price_)))
  size : bookSize s' ≤ bookSize s
  data : s'.data_ = s.data_

theorem StepOut.refl {s : OrderBookState} {acc : List Trade} (hwf : BookWF s) :
    StepOut s s acc acc :=
  ⟨hwf, List.Sublist.refl _, List.Sublist.refl _, fun h => h, fun _ ht => Or.inl ht,
    le_refl _, rfl⟩

theorem StepOut.trans {s s₁ s' : OrderBookState} {acc acc₁ tr : List Trade}
    (h1 : StepOut s s₁ acc acc₁) (h2 : StepOut s₁ s' acc₁ tr) : StepOut s s' acc tr := by
  refine ⟨h2.wf, h2.sigB.trans h1.sigB, h2.sigA.trans h1.sigA,
    fun h => h2.fak (h1.fak h), ?_, le_trans h2.size h1.size, h2.data.trans h1.data⟩
  intro t ht
  rcases h2.trades t ht with hacc | ⟨hbp, hap⟩
  · exact h1.trades t hacc
  · exact Or.inr ⟨pair_mem_of_sigs_sublist h1.sigB hbp, pair_mem_of_sigs_sublist h1.sigA hap⟩

/-- All side-local consequences of one inner matching step: the front
order of the level at the best price is either popped (`nl = bidsRest`)
or replaced by its partially-filled version. -/
theorem shrink_all {R : Int → Int → Prop} {bp : Int} {bid bid' : Order} {bidsRest : Level}
    {restB : List (Int × Level)} {sd : Side}
    (hsig : osig bid' = osig bid) {nl : Level} (hnl : nl = bidsRest ∨ nl = bid' :: bidsRest)
    (hsort : (((bp, bid :: bidsRest) :: restB).map Prod.fst).Pairwise R)
    (hne : neAll ((bp, bid :: bidsRest) :: restB))
    (hprice : priceAll ((bp, bid :: bidsRest) :: restB))
    (hside : sideAll ((bp, bid :: bidsRest) :: restB) sd) :
    (((if nl = [] then restB else (bp, nl) :: restB).map Prod.fst).Pairwise R) ∧
    neAll (if nl = [] then restB else (bp, nl) :: restB) ∧
    priceAll (if nl = [] then restB else (bp, nl) :: restB) ∧
    sideAll (if nl = [] then restB else (bp, nl) :: restB) sd ∧
    totalSize (if nl = [] then restB else (bp, nl) :: restB) ≤
      (bid :: bidsRest).length + totalSize restB ∧
    (nl = bidsRest → totalSize (if nl = [] then restB else (bp, nl) :: restB) <
      (bid :: bidsRest).length + totalSize restB) := by
  have hpr : bid'.price_ = bid.price_ := (osig_eq_iff.mp hsig).2.2.2
  have hsd : bid'.side_ = bid.side_ := (osig_eq_iff.mp hsig).2.2.1
  refine ⟨?_, ?_, shrink_priceAll hprice hpr hnl, shrink_sideAll hside hsd hnl, ?_, ?_⟩
  · exact List.Pairwise.sublist (keys_shrink bp nl restB) hsort
  · exact neAll_shrink bp nl (fun e he => hne e (List.mem_cons_of_mem _ he))
  · rw [totalSize_shrink]
    rcases hnl with rfl | rfl
    · simp only [List.length_cons]
      omega
    · simp only [List.length_cons]
      omega
  · intro hnlr
    rw [totalSize_shrink, hnlr]
    simp only [List.length_cons]
    omega

/-- The full effect of one iteration of the inner matching loop.  The
front orders `bid` and `ask` of the two best levels are filled by the
common quantity; a filled front is popped (and its `orders_` entry
erased), an unfilled front is replaced by its partially-filled version
`bid'` / `ask'` (same immutable fields); a level that became empty is
erased.  At least one front fills, so the book strictly shrinks. -/
theorem matchInner_step_spec {s : OrderBookState} {bp ap : Int} {bid ask bid' ask' : Order}
    {bidsRest asksRest : Level} {restB restA : List (Int × Level)}
    (hwf : BookWF s)
    (hsb : s.bids_ = (bp, bid :: bidsRest) :: restB)
    (hsa : s.asks_ = (ap, ask :: asksRest) :: restA)
    (hsigB : osig bid' = osig bid) (hsigA : osig ask' = osig ask)
    {nlB nlA : Level} {orders₁ : List (Nat × Order)}
    (hords :
      (orders₁ = eraseOrders (eraseOrders s.orders_ bid.orderId_) ask.orderId_ ∧
        nlB = bidsRest ∧ nlA = asksRest) ∨
      (orders₁ = eraseOrders s.orders_ bid.orderId_ ∧
        nlB = bidsRest ∧ nlA = ask' :: asksRest) ∨
      (orders₁ = eraseOrders s.orders_ ask.orderId_ ∧
        nlB = bid' :: bidsRest ∧ nlA = asksRest))
    (acc : List Trade) (qq : Nat) :
    StepOut s (OrderBookState.mk s.data_
        (if nlA = [] then restA else (ap, nlA) :: restA)
        (if nlB = [] then restB else (bp, nlB) :: restB) orders₁) acc
      (acc ++ [⟨⟨bid.orderId_, bid.price_, qq⟩, ⟨ask.orderId_, ask.price_, qq⟩⟩]) ∧
    bookSize (OrderBookState.mk s.data_
        (if nlA = [] then restA else (ap, nlA) :: restA)
        (if nlB = [] then restB else (bp, nlB) :: restB) orders₁) < bookSize s := by
  have hnlB : nlB = bidsRest ∨ nlB = bid' :: bidsRest := by
    rcases hords with ⟨_, h, _⟩ | ⟨_, h, _⟩ | ⟨_, h, _⟩
    · exact Or.inl h
    · exact Or.inl h
    · exact Or.inr h
  have hnlA : nlA = asksRest ∨ nlA = ask' :: asksRest := by
    rcases hords with ⟨_, _, h⟩ | ⟨_, _, h⟩ | ⟨_, _, h⟩
    · exact Or.inl h
    · exact Or.inr h
    · exact Or.inl h
  have hsortB : (((bp, bid :: bidsRest) :: restB).map Prod.fst).Pairwise (fun a b => b < a) := by
    have h := hwf.sortedBids
    rw [sortedDesc, hsb] at h
    exact h
  have hsortA : (((ap, ask :: asksRest) :: restA).map Prod.fst).Pairwise (fun a b => a < b) := by
    have h := hwf.sortedAsks
    rw [sortedAsc, hsa] at h
    exact h
  have bidFacts := shrink_all hsigB hnlB hsortB (hsb ▸ hwf.neBids)
    (hsb ▸ hwf.priceBids) (hsb ▸ hwf.sideBids)
  have askFacts := shrink_all hsigA hnlA hsortA (hsa ▸ hwf.neAsks)
    (hsa ▸ hwf.priceAsks) (hsa ▸ hwf.sideAsks)
  have hsigSubB : List.Sublist
      ((levelOrders (if nlB = [] then restB else (bp, nlB) :: restB)).map osig)
      ((levelOrders s.bids_).map osig) := by
    rw [hsb]
    exact shrink_sigs hsigB hnlB
  have hsigSubA : List.Sublist
      ((levelOrders (if nlA = [] then restA else (ap, nlA) :: restA)).map osig)
      ((levelOrders s.asks_).map osig) := by
    rw [hsa]
    exact shrink_sigs hsigA hnlA
  have hOldIds : (allOrders s).map Order.orderId_ =
      bid.orderId_ :: ((bidsRest.map Order.orderId_ ++ (levelOrders restB).map Order.orderId_) ++
        ask.orderId_ :: (asksRest.map Order.orderId_ ++ (levelOrders restA).map Order.orderId_)) := by
    rw [allOrders, bidOrders, askOrders, hsb, hsa, levelOrders_cons, levelOrders_cons]
    simp only [List.map_append, List.map_cons, List.cons_append, List.append_assoc]
  have hNodupOld : (bid.orderId_ ::
      ((bidsRest.map Order.orderId_ ++ (levelOrders restB).map Order.orderId_) ++
        ask.orderId_ :: (asksRest.map Order.orderId_ ++ (levelOrders restA).map Order.orderId_))).Nodup := by
    have h := hwf.nodupIds
    rw [hOldIds] at h
    exact h
  have hX : ((nlB ++ levelOrders restB).map Order.orderId_) =
        (bidsRest.map Order.orderId_ ++ (levelOrders restB).map Order.orderId_) ∨
      ((nlB ++ levelOrders restB).map Order.orderId_) =
        bid.orderId_ :: (bidsRest.map Order.orderId_ ++ (levelOrders restB).map Order.orderId_) := by
    rcases hnlB with rfl | rfl
    · left
      rw [List.map_append]
    · right
      rw [List.map_append, List.map_cons, (osig_eq_iff.mp hsigB).1, List.cons_append]
  have hY : ((nlA ++ levelOrders restA).map Order.orderId_) =
        (asksRest.map Order.orderId_ ++ (levelOrders restA).map Order.orderId_) ∨
      ((nlA ++ levelOrders restA).map Order.orderId_) =
        ask.orderId_ :: (asksRest.map Order.orderId_ ++ (levelOrders restA).map Order.orderId_) := by
    rcases hnlA with rfl | rfl
    · left
      rw [List.map_append]
    · right
      rw [List.map_append, List.map_cons, (osig_eq_iff.mp hsigA).1, List.cons_append]
  have hNewIds : (allOrders (OrderBookState.mk s.data_
      (if nlA = [] then restA else (ap, nlA) :: restA)
      (if nlB = [] then restB else (bp, nlB) :: restB) orders₁)).map Order.orderId_ =
      ((nlB ++ levelOrders restB).map Order.orderId_) ++
        ((nlA ++ levelOrders restA).map Order.orderId_) := by
    rw [allOrders, bidOrders, askOrders]
    simp only
    rw [levelOrders_shrink, levelOrders_shrink, List.map_append]
  have hNodupNew : (((nlB ++ levelOrders restB).map Order.orderId_) ++
      ((nlA ++ levelOrders restA).map Order.orderId_)).Nodup :=
    List.Nodup.sublist (ids_step_sub hX hY) hNodupOld
  have hLookupKeep : ∀ j : Nat,
      j ∈ (((nlB ++ levelOrders restB).map Order.orderId_) ++
        ((nlA ++ levelOrders restA).map Order.orderId_)) →
      lookupOrders orders₁ j = lookupOrders s.orders_ j := by
    intro j hj
    rcases hords with ⟨hoe, hb0, ha0⟩ | ⟨hoe, hb0, ha0⟩ | ⟨hoe, hb0, ha0⟩
    · have hXl : ((nlB ++ levelOrders restB).map Order.orderId_) =
          (bidsRest.map Order.orderId_ ++ (levelOrders restB).map Order.orderId_) := by
        rw [hb0, List.map_append]
      have hYl : ((nlA ++ levelOrders restA).map Order.orderId_) =
          (asksRest.map Order.orderId_ ++ (levelOrders restA).map Order.orderId_) := by
        rw [ha0, List.map_append]
      rw [hXl, hYl] at hj
      have hjb : j ≠ bid.orderId_ := by
        intro h
        exact ids_step_bid_notmem hNodupOld (Or.inl rfl) (h ▸ hj)
      have hja : j ≠ ask.orderId_ := by
        intro h
        exact ids_step_ask_notmem hNodupOld (Or.inl rfl) (h ▸ hj)
      rw [hoe, lookupOrders_erase_ne hja, lookupOrders_erase_ne hjb]
    · have hXl : ((nlB ++ levelOrders restB).map Order.orderId_) =
          (bidsRest.map Order.orderId_ ++ (levelOrders restB).map Order.orderId_) := by
        rw [hb0, List.map_append]
      have hYl : ((nlA ++ levelOrders restA).map Order.orderId_) =
          ask.orderId_ :: (asksRest.map Order.orderId_ ++ (levelOrders restA).map Order.orderId_) := by
        rw [ha0, List.map_append, List.map_cons, (osig_eq_iff.mp hsigA).1, List.cons_append]
      rw [hXl, hYl] at hj
      have hjb : j ≠ bid.orderId_ := by
        intro h
        exact ids_step_bid_notmem hNodupOld (Or.inr rfl) (h ▸ hj)
      rw [hoe, lookupOrders_erase_ne hjb]
    · have hXl : ((nlB ++ levelOrders restB).map Order.orderId_) =
          bid.orderId_ :: (bidsRest.map Order.orderId_ ++ (levelOrders restB).map Order.orderId_) := by
        rw [hb0, List.map_append, List.map_cons, (osig_eq_iff.mp hsigB).1, List.cons_append]
      have hYl : ((nlA ++ levelOrders restA).map Order.orderId_) =
          (asksRest.map Order.orderId_ ++ (levelOrders restA).map Order.orderId_) := by
        rw [ha0, List.map_append]
      rw [hXl, hYl] at hj
      have hja : j ≠ ask.orderId_ := by
        intro h
        exact ids_step_ask_notmem hNodupOld (Or.inr rfl) (h ▸ hj)
      rw [hoe, lookupOrders_erase_ne hja]
  have hSigAll : List.Sublist
      ((allOrders (OrderBookState.mk s.data_
        (if nlA = [] then restA else (ap, nlA) :: restA)
        (if nlB = [] then restB else (bp, nlB) :: restB) orders₁)).map osig)
      ((allOrders s).map osig) := by
    rw [allOrders, allOrders, List.map_append, List.map_append]
    exact List.Sublist.append hsigSubB hsigSubA
  refine ⟨⟨⟨?_, ?_, ?_, ?_, ?_, ?_, ?_, ?_, ?_, ?_⟩, hsigSubB, hsigSubA, ?_, ?_, ?_, rfl⟩, ?_⟩
  · exact bidFacts.1
  · exact askFacts.1
  · exact bidFacts.2.1
  · exact askFacts.2.1
  · exact bidFacts.2.2.1
  · exact askFacts.2.2.1
  · exact bidFacts.2.2.2.1
  · exact askFacts.2.2.2.1
  · rw [hNewIds]
    exact hNodupNew
  · intro o'' ho''
    obtain ⟨oo, hooMem, hooSig⟩ := List.mem_map.mp (hSigAll.subset (List.mem_map_of_mem osig ho''))
    obtain ⟨e₀, he₀, he₀sig⟩ := hwf.idx oo hooMem
    have hid : oo.orderId_ = o''.orderId_ := (osig_eq_iff.mp hooSig).1
    have hjmem : o''.orderId_ ∈ (((nlB ++ levelOrders restB).map Order.orderId_) ++
        ((nlA ++ levelOrders restA).map Order.orderId_)) := by
      rw [← hNewIds]
      exact List.mem_map_of_mem Order.orderId_ ho''
    refine ⟨e₀, ?_, ?_⟩
    · rw [hLookupKeep _ hjmem, ← hid]
      exact he₀
    · rw [he₀sig, hooSig]
  · intro hfl
    constructor
    · have hnodupB : ((bid :: (bidsRest ++ levelOrders restB)).map Order.orderId_).Nodup := by
        refine List.Nodup.sublist ?_ hNodupOld
        rw [List.map_cons, List.map_append]
        exact List.Sublist.cons₂ _ (List.sublist_append_left _ _)
      exact fak_shrink hsigB hnlB (hsb ▸ hfl.1) hnodupB
    · have hnodupA : ((ask :: (asksRest ++ levelOrders restA)).map Order.orderId_).Nodup := by
        refine List.Nodup.sublist ?_ hNodupOld
        rw [List.map_cons, List.map_append]
        exact (List.sublist_append_right _ _).trans (List.sublist_cons_self _ _)
      exact fak_shrink hsigA hnlA (hsa ▸ hfl.2) hnodupA
  · intro t ht
    rcases List.mem_append.mp ht with hacc | hnew
    · exact Or.inl hacc
    · rcases List.mem_cons.mp hnew with rfl | h0
      · refine Or.inr ⟨?_, ?_⟩
        · rw [hsb, levelOrders_cons]
          exact List.mem_map_of_mem _ (List.mem_append.mpr (Or.inl (List.mem_cons_self _ _)))
        · rw [hsa, levelOrders_cons]
          exact List.mem_map_of_mem _ (List.mem_append.mpr (Or.inl (List.mem_cons_self _ _)))
      · simp at h0
  · have hbs : bookSize s = ((bid :: bidsRest).length + totalSize restB) +
        ((ask :: asksRest).length + totalSize restA) := by
      rw [bookSize, hsb, hsa, totalSize_cons, totalSize_cons]
    have hsz : bookSize (OrderBookState.mk s.data_
        (if nlA = [] then restA else (ap, nlA) :: restA)
        (if nlB = [] then restB else (bp, nlB) :: restB) orders₁) =
        totalSize (if nlB = [] then restB else (bp, nlB) :: restB) +
        totalSize (if nlA = [] then restA else (ap, nlA) :: restA) := by
      rw [bookSize]
    rw [hsz, hbs]
    have h1 := bidFacts.2.2.2.2.1
    have h2 := askFacts.2.2.2.2.1
    rcases hords with ⟨_, hb0, ha0⟩ | ⟨_, hb0, _⟩ | ⟨_, _, ha0⟩
    · have h3 := bidFacts.2.2.2.2.2 hb0
      omega
    · have h3 := bidFacts.2.2.2.2.2 hb0
      omega
    · have h3 := askFacts.2.2.2.2.2 ha0
      omega
  · have hbs : bookSize s = ((bid :: bidsRest).length + totalSize restB) +
        ((ask :: asksRest).length + totalSize restA) := by
      rw [bookSize, hsb, hsa, totalSize_cons, totalSize_cons]
    have hsz : bookSize (OrderBookState.mk s.data_
        (if nlA = [] then restA else (ap, nlA) :: restA)
        (if nlB = [] then restB else (bp, nlB) :: restB) orders₁) =
        totalSize (if nlB = [] then restB else (bp, nlB) :: restB) +
        totalSize (if nlA = [] then restA else (ap, nlA) :: restA) := by
      rw [bookSize]
    rw [hsz, hbs]
    have h1 := bidFacts.2.2.2.2.1
    have h2 := askFacts.2.2.2.2.1
    rcases hords with ⟨_, hb0, ha0⟩ | ⟨_, hb0, _⟩ | ⟨_, _, ha0⟩
    · have h3 := bidFacts.2.2.2.2.2 hb0
      omega
    · have h3 := bidFacts.2.2.2.2.2 hb0
      omega
    · have h3 := askFacts.2.2.2.2.2 ha0
      omega

theorem matchInner_exit_bidNone {n : Nat} {bp ap : Int} {s : OrderBookState} {acc : List Trade}
    (h : lookupLevel s.bids_ bp = none) :
    matchInner (n + 1) bp ap s acc = .ok (acc, s) := by
  rw [matchInner, h]

theorem matchInner_exit_bidNil {n : Nat} {bp ap : Int} {s : OrderBookState} {acc : List Trade}
    (h : lookupLevel s.bids_ bp = some []) :
    matchInner (n + 1) bp ap s acc = .ok (acc, s) := by
  rw [matchInner, h]

theorem matchInner_exit_askNone {n : Nat} {bp ap : Int} {s : OrderBookState} {acc : List Trade}
    {bid : Order} {bidsRest : Level}
    (hx : lookupLevel s.bids_ bp = some (bid :: bidsRest))
    (h : lookupLevel s.asks_ ap = none) :
    matchInner (n + 1) bp ap s acc = .ok (acc, s) := by
  rw [matchInner, hx, h]

theorem matchInner_exit_askNil {n : Nat} {bp ap : Int} {s : OrderBookState} {acc : List Trade}
    {bid : Order} {bidsRest : Level}
    (hx : lookupLevel s.bids_ bp = some (bid :: bidsRest))
    (h : lookupLevel s.asks_ ap = some []) :
    matchInner (n + 1) bp ap s acc = .ok (acc, s) := by
  rw [matchInner, hx, h]

theorem matchInner_step_eq {n : Nat} {bp ap : Int} {s : OrderBookState} {acc : List Trade}
    {bid ask : Order} {bidsRest asksRest : Level}
    (hlb : lookupLevel s.bids_ bp = some (bid :: bidsRest))
    (hla : lookupLevel s.asks_ ap = some (ask :: asksRest)) :
    matchInner (n + 1) bp ap s acc =
      matchInner n bp ap
        (OrderBookState.mk s.data_
          (if (if ({ ask with remainingQuantity_ :=
                  ask.remainingQuantity_ - min bid.remainingQuantity_ ask.remainingQuantity_ } : Order).isFilled = true
               then asksRest
               else { ask with remainingQuantity_ :=
                  ask.remainingQuantity_ - min bid.remainingQuantity_ ask.remainingQuantity_ } :: asksRest) = []
           then eraseLevelKey s.asks_ ap
           else setLevel s.asks_ ap
             (if ({ ask with remainingQuantity_ :=
                  ask.remainingQuantity_ - min bid.remainingQuantity_ ask.remainingQuantity_ } : Order).isFilled = true
              then asksRest
              else { ask with remainingQuantity_ :=
                  ask.remainingQuantity_ - min bid.remainingQuantity_ ask.remainingQuantity_ } :: asksRest))
          (if (if ({ bid with remainingQuantity_ :=
                  bid.remainingQuantity_ - min bid.remainingQuantity_ ask.remainingQuantity_ } : Order).isFilled = true
               then bidsRest
               else { bid with remainingQuantity_ :=
                  bid.remainingQuantity_ - min bid.remainingQuantity_ ask.remainingQuantity_ } :: bidsRest) = []
           then eraseLevelKey s.bids_ bp
           else setLevel s.bids_ bp
             (if ({ bid with remainingQuantity_ :=
                  bid.remainingQuantity_ - min bid.remainingQuantity_ ask.remainingQuantity_ } : Order).isFilled = true
              then bidsRest
              else { bid with remainingQuantity_ :=
                  bid.remainingQuantity_ - min bid.remainingQuantity_ ask.remainingQuantity_ } :: bidsRest))
          (if ({ ask with remainingQuantity_ :=
                  ask.remainingQuantity_ - min bid.remainingQuantity_ ask.remainingQuantity_ } : Order).isFilled = true
           then eraseOrders
             (if ({ bid with remainingQuantity_ :=
                  bid.remainingQuantity_ - min bid.remainingQuantity_ ask.remainingQuantity_ } : Order).isFilled = true
              then eraseOrders s.orders_ bid.orderId_
              else s.orders_) ask.orderId_
           else
             (if ({ bid with remainingQuantity_ :=
                  bid.remainingQuantity_ - min bid.remainingQuantity_ ask.remainingQuantity_ } : Order).isFilled = true
              then eraseOrders s.orders_ bid.orderId_
              else s.orders_)))
        (acc ++ [⟨⟨bid.orderId_, bid.price_, min bid.remainingQuantity_ ask.remainingQuantity_⟩,
                  ⟨ask.orderId_, ask.price_, min bid.remainingQuantity_ ask.remainingQuantity_⟩⟩]) := by
  rw [matchInner, hlb, hla]
  simp only [Order.Fill_min_left, Order.Fill_min_right]

theorem matchInner_main (fuel : Nat) (bp ap : Int) :
    ∀ (s : OrderBookState) (acc tr : List Trade) (s' : OrderBookState),
      BookWF s →
      ((∃ lb restB, s.bids_ = (bp, lb) :: restB) ∨ lookupLevel s.bids_ bp = none) →
      ((∃ la restA, s.asks_ = (ap, la) :: restA) ∨ lookupLevel s.asks_ ap = none) →
      matchInner fuel bp ap s acc = .ok (tr, s') →
      StepOut s s' acc tr ∧
      (fuel ≠ 0 → ∀ b bl a al, lookupLevel s.bids_ bp = some (b :: bl) →
        lookupLevel s.asks_ ap = some (a :: al) → bookSize s' < bookSize s) := by
  induction fuel with
  | zero =>
    intro s acc tr s' hwf _ _ hrun
    rw [matchInner] at hrun
    obtain ⟨rfl, rfl⟩ : acc = tr ∧ s = s' := by
      simp only [Except.ok.injEq, Prod.mk.injEq] at hrun
      exact hrun
    exact ⟨StepOut.refl hwf, fun h0 => absurd rfl h0⟩
  | succ n ih =>
    intro s acc tr s' hwf hb ha hrun
    have exitCase : matchInner (n + 1) bp ap s acc = .ok (acc, s) →
        (∀ b bl a al, lookupLevel s.bids_ bp = some (b :: bl) →
          lookupLevel s.asks_ ap = some (a :: al) → False) →
        StepOut s s' acc tr ∧
        (n + 1 ≠ 0 → ∀ b bl a al, lookupLevel s.bids_ bp = some (b :: bl) →
          lookupLevel s.asks_ ap = some (a :: al) → bookSize s' < bookSize s) := by
      intro hexit hnostep
      rw [hexit] at hrun
      obtain ⟨rfl, rfl⟩ : acc = tr ∧ s = s' := by
        simp only [Except.ok.injEq, Prod.mk.injEq] at hrun
        exact hrun
      exact ⟨StepOut.refl hwf, fun _ b bl a al h1 h2 => (hnostep b bl a al h1 h2).elim⟩
    rcases hb with ⟨lb, restB, hsb⟩ | hbN
    · have hlb : lookupLevel s.bids_ bp = some lb := by
        rw [hsb]
        exact lookupLevel_cons_self _ _ _
      rcases lb with _ | ⟨bid, bidsRest⟩
      · refine exitCase (matchInner_exit_bidNil hlb) ?_
        intro b bl a al h1 _
        rw [hlb] at h1
        simp at h1
      · rcases ha with ⟨la, restA, hsa⟩ | haN
        · have hla : lookupLevel s.asks_ ap = some la := by
            rw [hsa]
            exact lookupLevel_cons_self _ _ _
          rcases la with _ | ⟨ask, asksRest⟩
          · refine exitCase (matchInner_exit_askNil hlb hla) ?_
            intro b bl a al _ h2
            rw [hla] at h2
            simp at h2
          · -- the genuine matching step
            rw [matchInner_step_eq hlb hla] at hrun
            by_cases hbf : ({ bid with remainingQuantity_ :=
                bid.remainingQuantity_ - min bid.remainingQuantity_ ask.remainingQuantity_ } : Order).isFilled = true
            · simp only [if_pos hbf] at hrun
              by_cases haf : ({ ask with remainingQuantity_ :=
                  ask.remainingQuantity_ - min bid.remainingQuantity_ ask.remainingQuantity_ } : Order).isFilled = true
              · simp only [if_pos haf] at hrun
                rw [hsb, hsa] at hrun
                simp only [eraseLevelKey_cons_self, setLevel_cons_self] at hrun
                obtain ⟨hstep, hstrict⟩ := @matchInner_step_spec s bp ap bid ask
                  { bid with remainingQuantity_ :=
                      bid.remainingQuantity_ - min bid.remainingQuantity_ ask.remainingQuantity_ }
                  { ask with remainingQuantity_ :=
                      ask.remainingQuantity_ - min bid.remainingQuantity_ ask.remainingQuantity_ }
                  bidsRest asksRest restB restA hwf hsb hsa rfl rfl _ _ _
                  (Or.inl ⟨rfl, rfl, rfl⟩) acc
                  (min bid.remainingQuantity_ ask.remainingQuantity_)
                have hb₁ : (∃ lb₂ restB₂,
                    (if (bidsRest : Level) = [] then restB else (bp, bidsRest) :: restB) = (bp, lb₂) :: restB₂) ∨
                    lookupLevel (if (bidsRest : Level) = [] then restB else (bp, bidsRest) :: restB) bp = none := by
                  by_cases hc : (bidsRest : Level) = []
                  · right
                    rw [if_pos hc]
                    exact lookupLevel_tail_none_of_sortedDesc (hsb ▸ hwf.sortedBids)
                  · left
                    exact ⟨bidsRest, restB, by rw [if_neg hc]⟩
                have ha₁ : (∃ la₂ restA₂,
                    (if (asksRest : Level) = [] then restA else (ap, asksRest) :: restA) = (ap, la₂) :: restA₂) ∨
                    lookupLevel (if (asksRest : Level) = [] then restA else (ap, asksRest) :: restA) ap = none := by
                  by_cases hc : (asksRest : Level) = []
                  · right
                    rw [if_pos hc]
                    exact lookupLevel_tail_none_of_sortedAsc (hsa ▸ hwf.sortedAsks)
                  · left
                    exact ⟨asksRest, restA, by rw [if_neg hc]⟩
                obtain ⟨ihOut, _⟩ := ih _ _ _ _ hstep.wf hb₁ ha₁ hrun
                refine ⟨StepOut.trans hstep ihOut, fun _ _ _ _ _ _ _ => ?_⟩
                exact lt_of_le_of_lt ihOut.size hstrict
              · simp only [if_neg haf] at hrun
                rw [hsb, hsa] at hrun
                simp only [eraseLevelKey_cons_self, setLevel_cons_self] at hrun
                obtain ⟨hstep, hstrict⟩ := @matchInner_step_spec s bp ap bid ask
                  { bid with remainingQuantity_ :=
                      bid.remainingQuantity_ - min bid.remainingQuantity_ ask.remainingQuantity_ }
                  { ask with remainingQuantity_ :=
                      ask.remainingQuantity_ - min bid.remainingQuantity_ ask.remainingQuantity_ }
                  bidsRest asksRest restB restA hwf hsb hsa rfl rfl _ _ _
                  (Or.inr (Or.inl ⟨rfl, rfl, rfl⟩)) acc
                  (min bid.remainingQuantity_ ask.remainingQuantity_)
                have hb₁ : (∃ lb₂ restB₂,
                    (if (bidsRest : Level) = [] then restB else (bp, bidsRest) :: restB) = (bp, lb₂) :: restB₂) ∨
                    lookupLevel (if (bidsRest : Level) = [] then restB else (bp, bidsRest) :: restB) bp = none := by
                  by_cases hc : (bidsRest : Level) = []
                  · right
                    rw [if_pos hc]
                    exact lookupLevel_tail_none_of_sortedDesc (hsb ▸ hwf.sortedBids)
                  · left
                    exact ⟨bidsRest, restB, by rw [if_neg hc]⟩
                have ha₁ : (∃ la₂ restA₂,
                    (if ({ ask with remainingQuantity_ :=
                        ask.remainingQuantity_ - min bid.remainingQuantity_ ask.remainingQuantity_ } :: asksRest : Level) = []
                      then restA
                      else (ap, { ask with remainingQuantity_ :=
                        ask.remainingQuantity_ - min bid.remainingQuantity_ ask.remainingQuantity_ } :: asksRest) :: restA) =
                      (ap, la₂) :: restA₂) ∨
                    lookupLevel (if ({ ask with remainingQuantity_ :=
                        ask.remainingQuantity_ - min bid.remainingQuantity_ ask.remainingQuantity_ } :: asksRest : Level) = []
                      then restA
                      else (ap, { ask with remainingQuantity_ :=
                        ask.remainingQuantity_ - min bid.remainingQuantity_ ask.remainingQuantity_ } :: asksRest) :: restA) ap = none := by
                  left
                  exact ⟨_, restA, by rw [if_neg (List.cons_ne_nil _ _)]⟩
                obtain ⟨ihOut, _⟩ := ih _ _ _ _ hstep.wf hb₁ ha₁ hrun
                refine ⟨StepOut.trans hstep ihOut, fun _ _ _ _ _ _ _ => ?_⟩
                exact lt_of_le_of_lt ihOut.size hstrict
            · have haf : ({ ask with remainingQuantity_ :=
                  ask.remainingQuantity_ - min bid.remainingQuantity_ ask.remainingQuantity_ } : Order).isFilled = true := by
                rw [Order.isFilled] at hbf ⊢
                simp only [beq_iff_eq] at hbf ⊢
                rcases Nat.le_total bid.remainingQuantity_ ask.remainingQuantity_ with h | h
                · exact absurd (by rw [Nat.min_eq_left h]; omega) hbf
                · rw [Nat.min_eq_right h]
                  omega
              simp only [if_neg hbf, if_pos haf] at hrun
              rw [hsb, hsa] at hrun
              simp only [eraseLevelKey_cons_self, setLevel_cons_self] at hrun
              obtain ⟨hstep, hstrict⟩ := @matchInner_step_spec s bp ap bid ask
                { bid with remainingQuantity_ :=
                    bid.remainingQuantity_ - min bid.remainingQuantity_ ask.remainingQuantity_ }
                { ask with remainingQuantity_ :=
                    ask.remainingQuantity_ - min bid.remainingQuantity_ ask.remainingQuantity_ }
                bidsRest asksRest restB restA hwf hsb hsa rfl rfl _ _ _
                (Or.inr (Or.inr ⟨rfl, rfl, rfl⟩)) acc
                (min bid.remainingQuantity_ ask.remainingQuantity_)
              have hb₁ : (∃ lb₂ restB₂,
                  (if ({ bid with remainingQuantity_ :=
                      bid.remainingQuantity_ - min bid.remainingQuantity_ ask.remainingQuantity_ } :: bidsRest : Level) = []
                    then restB
                    else (bp, { bid with remainingQuantity_ :=
                      bid.remainingQuantity_ - min bid.remainingQuantity_ ask.remainingQuantity_ } :: bidsRest) :: restB) =
                    (bp, lb₂) :: restB₂) ∨
                  lookupLevel (if ({ bid with remainingQuantity_ :=
                      bid.remainingQuantity_ - min bid.remainingQuantity_ ask.remainingQuantity_ } :: bidsRest : Level) = []
                    then restB
                    else (bp, { bid with remainingQuantity_ :=
                      bid.remainingQuantity_ - min bid.remainingQuantity_ ask.remainingQuantity_ } :: bidsRest) :: restB) bp = none := by
                left
                exact ⟨_, restB, by rw [if_neg (List.cons_ne_nil _ _)]⟩
              have ha₁ : (∃ la₂ restA₂,
                  (if (asksRest : Level) = [] then restA else (ap, asksRest) :: restA) = (ap, la₂) :: restA₂) ∨
                  lookupLevel (if (asksRest : Level) = [] then restA else (ap, asksRest) :: restA) ap = none := by
                by_cases hc : (asksRest : Level) = []
                · right
                  rw [if_pos hc]
                  exact lookupLevel_tail_none_of_sortedAsc (hsa ▸ hwf.sortedAsks)
                · left
                  exact ⟨asksRest, restA, by rw [if_neg hc]⟩
              obtain ⟨ihOut, _⟩ := ih _ _ _ _ hstep.wf hb₁ ha₁ hrun
              refine ⟨StepOut.trans hstep ihOut, fun _ _ _ _ _ _ _ => ?_⟩
              exact lt_of_le_of_lt ihOut.size hstrict
        · refine exitCase (matchInner_exit_askNone hlb haN) ?_
          intro b bl a al _ h2
          rw [haN] at h2
          exact Option.noConfusion h2
    · refine exitCase (matchInner_exit_bidNone hbN) ?_
      intro b bl a al h1 _
      rw [hbN] at h1
      exact Option.noConfusion h1

theorem matchOuter_exit_bidNil {n : Nat} {s : OrderBookState} {acc : List Trade}
    (h : s.bids_ = []) : matchOuter (n + 1) s acc = .ok (acc, s) := by
  rw [matchOuter, h]
  rcases s.asks_ with _ | ⟨⟨ap, la⟩, restA⟩ <;> rfl

theorem matchOuter_exit_askNil {n : Nat} {s : OrderBookState} {acc : List Trade}
    (h : s.asks_ = []) : matchOuter (n + 1) s acc = .ok (acc, s) := by
  rw [matchOuter, h]
  rcases s.bids_ with _ | ⟨⟨bp, lb⟩, restB⟩ <;> rfl

theorem matchOuter_exit_lt {n : Nat} {s : OrderBookState} {acc : List Trade}
    {bp ap : Int} {lb la : Level} {restB restA : List (Int × Level)}
    (hsb : s.bids_ = (bp, lb) :: restB) (hsa : s.asks_ = (ap, la) :: restA)
    (hlt : bp < ap) : matchOuter (n + 1) s acc = .ok (acc, s) := by
  rw [matchOuter, hsb, hsa]
  simp only [List.head?_cons, if_pos hlt]

theorem matchOuter_step {n : Nat} {s : OrderBookState} {acc : List Trade}
    {bp ap : Int} {lb la : Level} {restB restA : List (Int × Level)}
    (hsb : s.bids_ = (bp, lb) :: restB) (hsa : s.asks_ = (ap, la) :: restA)
    (hlt : ¬ bp < ap) : matchOuter (n + 1) s acc =
      match matchInner (bookSize s + 1) bp ap s acc with
      | .error e => .error e
      | .ok (acc', s₁) => matchOuter n s₁ acc' := by
  rw [matchOuter, hsb, hsa]
  simp only [List.head?_cons, if_neg hlt]

/-- Full-run guarantees of the outer matching loop: with enough fuel a
successful run yields a `StepOut` from the start state and a book that is
no longer crossed. -/
theorem matchOuter_main (fuel : Nat) :
    ∀ (s : OrderBookState) (acc tr : List Trade) (s' : OrderBookState),
      BookWF s → bookSize s < fuel →
      matchOuter fuel s acc = .ok (tr, s') →
      StepOut s s' acc tr ∧ NotCrossed s' := by
  induction fuel with
  | zero =>
    intro s acc tr s' _ hlt _
    omega
  | succ n ih =>
    intro s acc tr s' hwf hlt hrun
    rcases hsb : s.bids_ with _ | ⟨⟨bp, lb⟩, restB⟩
    · rw [matchOuter_exit_bidNil hsb] at hrun
      obtain ⟨rfl, rfl⟩ : acc = tr ∧ s = s' := by
        simp only [Except.ok.injEq, Prod.mk.injEq] at hrun
        exact hrun
      refine ⟨StepOut.refl hwf, ?_⟩
      intro bp' lb' ap' la' h1 _
      rw [hsb] at h1
      exact Option.noConfusion h1
    · rcases hsa : s.asks_ with _ | ⟨⟨ap, la⟩, restA⟩
      · rw [matchOuter_exit_askNil hsa] at hrun
        obtain ⟨rfl, rfl⟩ : acc = tr ∧ s = s' := by
          simp only [Except.ok.injEq, Prod.mk.injEq] at hrun
          exact hrun
        refine ⟨StepOut.refl hwf, ?_⟩
        intro bp' lb' ap' la' _ h2
        rw [hsa] at h2
        exact Option.noConfusion h2
      · by_cases hlt2 : bp < ap
        · rw [matchOuter_exit_lt hsb hsa hlt2] at hrun
          obtain ⟨rfl, rfl⟩ : acc = tr ∧ s = s' := by
            simp only [Except.ok.injEq, Prod.mk.injEq] at hrun
            exact hrun
          refine ⟨StepOut.refl hwf, ?_⟩
          intro bp' lb' ap' la' h1 h2
          rw [hsb] at h1
          rw [hsa] at h2
          simp only [List.head?_cons, Option.some.injEq, Prod.mk.injEq] at h1 h2
          rw [← h1.1, ← h2.1]
          exact hlt2
        · rw [matchOuter_step hsb hsa hlt2] at hrun
          rcases hmi : matchInner (bookSize s + 1) bp ap s acc with e | ⟨acc', s₁⟩
          · rw [hmi] at hrun
            exact Except.noConfusion hrun
          · rw [hmi] at hrun
            obtain ⟨hlb0, hbid, blRest, hlbshape⟩ :
                lb ≠ [] ∧ ∃ bid blRest, lb = bid :: blRest := by
              have hne := hwf.neBids (bp, lb) (by rw [hsb]; exact List.mem_cons_self _ _)
              rcases lb with _ | ⟨bid, blRest⟩
              · exact absurd rfl hne
              · exact ⟨hne, bid, blRest, rfl⟩
            obtain ⟨hla0, hask, alRest, hlashape⟩ :
                la ≠ [] ∧ ∃ ask alRest, la = ask :: alRest := by
              have hne := hwf.neAsks (ap, la) (by rw [hsa]; exact List.mem_cons_self _ _)
              rcases la with _ | ⟨ask, alRest⟩
              · exact absurd rfl hne
              · exact ⟨hne, ask, alRest, rfl⟩
            obtain ⟨out₁, hstrict⟩ := matchInner_main (bookSize s + 1) bp ap s acc acc' s₁ hwf
              (Or.inl ⟨lb, restB, hsb⟩) (Or.inl ⟨la, restA, hsa⟩) hmi
            have hsz : bookSize s₁ < bookSize s := by
              refine hstrict (by omega) hbid blRest hask alRest ?_ ?_
              · rw [hsb, hlbshape]
                exact lookupLevel_cons_self _ _ _
              · rw [hsa, hlashape]
                exact lookupLevel_cons_self _ _ _
            obtain ⟨out₂, hnc⟩ := ih s₁ acc' tr s' out₁.wf (by omega) hrun
            exact ⟨StepOut.trans out₁ out₂, hnc⟩

theorem sweepBidFAK_data (s : OrderBookState) : (sweepBidFAK s).data_ = s.data_ := by
  rw [sweepBidFAK]
  split
  · split
    · exact cancel_data _ _
    · rfl
  · rfl

theorem sweepAskFAK_data (s : OrderBookState) : (sweepAskFAK s).data_ = s.data_ := by
  rw [sweepAskFAK]
  split
  · split
    · exact cancel_data _ _
    · rfl
  · rfl

/-- Full guarantees of `OrderBook::MatchOrders` from a well-formed state
whose only possible `FillAndKill` residue sits alone at a front level:
the result is well-formed, uncrossed, entirely FAK-free, keeps the
level-data index untouched, and every emitted trade takes each leg's id
and price from an order resting on that side when matching began. -/
theorem MatchOrders_main {s s' : OrderBookState} {tr : List Trade}
    (hwf : BookWF s) (hfak : FAKloc s)
    (hrun : OrderBook.MatchOrders s = .ok (tr, s')) :
    BookWF s' ∧ NotCrossed s' ∧ NoFAK s' ∧ s'.data_ = s.data_ ∧
    (∀ t ∈ tr,
      (t.bidTrade_.orderId_, t.bidTrade_.price_) ∈
        (levelOrders s.bids_).map (fun o => (o.orderId_, o.price_)) ∧
      (t.askTrade_.orderId_, t.askTrade_.price_) ∈
        (levelOrders s.asks_).map (fun o => (o.orderId_, o.price_))) := by
  rw [OrderBook.MatchOrders] at hrun
  rcases hmo : matchOuter (bookSize s + 1) s [] with e | ⟨trades, s₁⟩
  · rw [hmo] at hrun
    exact Except.noConfusion hrun
  · rw [hmo] at hrun
    obtain ⟨rfl, rfl⟩ : trades = tr ∧ sweepAskFAK (sweepBidFAK s₁) = s' := by
      simp only [Except.ok.injEq, Prod.mk.injEq] at hrun
      exact hrun
    obtain ⟨out, hnc₁⟩ := matchOuter_main (bookSize s + 1) s [] trades s₁ hwf (by omega) hmo
    have hfak₁ : FAKloc s₁ := out.fak hfak
    obtain ⟨hwfB, hnoB, hasksB, hncB⟩ := sweepBidFAK_spec out.wf hfak₁.1
    have hfakA : fakAtHead (sweepBidFAK s₁).asks_ := by
      rw [hasksB]
      exact hfak₁.2
    obtain ⟨hwfA, hnoA, hbidsA, hncA⟩ := sweepAskFAK_spec hwfB hfakA
    refine ⟨hwfA, hncA (hncB hnc₁), ?_, ?_, ?_⟩
    · intro o ho
      rw [allOrders] at ho
      rcases List.mem_append.mp ho with hob | hoa
      · rw [bidOrders, hbidsA] at hob
        exact hnoB o hob
      · rw [askOrders] at hoa
        exact hnoA o hoa
    · rw [sweepAskFAK_data, sweepBidFAK_data]
      exact out.data
    · intro t ht
      rcases out.trades t ht with h0 | hp
      · simp at h0
      · exact hp

theorem marketAdjust_id {s : OrderBookState} {o o₁ : Order}
    (h : marketAdjust s o = some o₁) : o₁.orderId_ = o.orderId_ := by
  rw [marketAdjust] at h
  split at h
  · split at h
    · obtain rfl := Option.some.inj h
      rfl
    · split at h
      · obtain rfl := Option.some.inj h
        rfl
      · exact Option.noConfusion h
  · obtain rfl := Option.some.inj h
    rfl

/-- Full guarantees of `OrderBook::AddOrder` from an invariant state: the
invariant is preserved, and every emitted trade takes each leg's id and
price either from an order that was already resting on that side or from
the incoming order itself (after the Market-order price rewrite). -/
theorem addOrder_main {s s' : OrderBookState} {o : Order} {tr : List Trade}
    (hinv : BookInv s) (hrun : OrderBook.AddOrder s o = .ok (tr, s')) :
    BookInv s' ∧
    ∀ t ∈ tr, ∃ o₁, marketAdjust s o = some o₁ ∧
      ((t.bidTrade_.orderId_, t.bidTrade_.price_) ∈
          (levelOrders s.bids_).map (fun o₀ => (o₀.orderId_, o₀.price_)) ∨
        (t.bidTrade_.orderId_, t.bidTrade_.price_) = (o₁.orderId_, o₁.price_)) ∧
      ((t.askTrade_.orderId_, t.askTrade_.price_) ∈
          (levelOrders s.asks_).map (fun o₀ => (o₀.orderId_, o₀.price_)) ∨
        (t.askTrade_.orderId_, t.askTrade_.price_) = (o₁.orderId_, o₁.price_)) := by
  obtain ⟨hwf, hnc, hnofak⟩ := hinv
  rw [OrderBook.AddOrder] at hrun
  by_cases hdup : containsOrderId s.orders_ o.orderId_ = true
  · rw [if_pos hdup] at hrun
    obtain ⟨rfl, rfl⟩ : ([] : List Trade) = tr ∧ s = s' := by
      simp only [Except.ok.injEq, Prod.mk.injEq] at hrun
      exact hrun
    exact ⟨⟨hwf, hnc, hnofak⟩, fun t ht => absurd ht (List.not_mem_nil t)⟩
  · rw [if_neg hdup] at hrun
    rcases hma : marketAdjust s o with _ | o₁
    · rw [hma] at hrun
      dsimp only at hrun
      obtain ⟨rfl, rfl⟩ : ([] : List Trade) = tr ∧ s = s' := by
        simp only [Except.ok.injEq, Prod.mk.injEq] at hrun
        exact hrun
      exact ⟨⟨hwf, hnc, hnofak⟩, fun t ht => absurd ht (List.not_mem_nil t)⟩
    · rw [hma] at hrun
      dsimp only at hrun
      by_cases hfakrej : o₁.orderType_ = OrderType.FillAndKill ∧
          ¬ (OrderBook.CanMatch s o₁.side_ o₁.price_ = true)
      · rw [if_pos hfakrej] at hrun
        obtain ⟨rfl, rfl⟩ : ([] : List Trade) = tr ∧ s = s' := by
          simp only [Except.ok.injEq, Prod.mk.injEq] at hrun
          exact hrun
        exact ⟨⟨hwf, hnc, hnofak⟩, fun t ht => absurd ht (List.not_mem_nil t)⟩
      · rw [if_neg hfakrej] at hrun
        by_cases hfokrej : o₁.orderType_ = OrderType.FillOrKill ∧
            ¬ (OrderBook.CanFullyFill s o₁.side_ o₁.price_ o₁.initialQuantity_ = true)
        · rw [if_pos hfokrej] at hrun
          obtain ⟨rfl, rfl⟩ : ([] : List Trade) = tr ∧ s = s' := by
            simp only [Except.ok.injEq, Prod.mk.injEq] at hrun
            exact hrun
          exact ⟨⟨hwf, hnc, hnofak⟩, fun t ht => absurd ht (List.not_mem_nil t)⟩
        · rw [if_neg hfokrej] at hrun
          have hfresh : lookupOrders s.orders_ o₁.orderId_ = none := by
            rw [marketAdjust_id hma]
            rw [containsOrderId, Bool.not_eq_true] at hdup
            exact Option.not_isSome_iff_eq_none.mp (by rw [hdup]; exact Bool.false_ne_true)
          have hwfE : BookWF (enqueueOrder s o₁) := enqueue_BookWF hwf hfresh
          have hfakE : FAKloc (enqueueOrder s o₁) := by
            by_cases hfak : o₁.orderType_ = OrderType.FillAndKill
            · have hcm : OrderBook.CanMatch s o₁.side_ o₁.price_ = true := by
                by_contra hncm
                exact hfakrej ⟨hfak, hncm⟩
              rcases hside : o₁.side_ with _ | _
              · exact enqueue_FAKloc_fak_buy hwf hnc hnofak hside (hside ▸ hcm)
              · exact enqueue_FAKloc_fak_sell hwf hnc hnofak hside (hside ▸ hcm)
            · exact enqueue_FAKloc_not_fak hnofak hfak
          obtain ⟨hwf', hnc', hnofak', -, htr⟩ := MatchOrders_main hwfE hfakE hrun
          refine ⟨⟨hwf', hnc', hnofak'⟩, ?_⟩
          intro t ht
          obtain ⟨hbp, hap⟩ := htr t ht
          refine ⟨o₁, rfl, ?_, ?_⟩
          · by_cases hside : o₁.side_ = Side.Buy
            · rw [enqueue_bids, if_pos hside] at hbp
              have := (((insertBidLevel_orders_perm o₁.price_ o₁ s.bids_).map
                (fun o₀ => (o₀.orderId_, o₀.price_))).mem_iff).mp hbp
              rw [List.map_cons] at this
              rcases List.mem_cons.mp this with h1 | h1
              · exact Or.inr h1
              · exact Or.inl h1
            · rw [enqueue_bids, if_neg hside] at hbp
              exact Or.inl hbp
          · by_cases hside : o₁.side_ = Side.Buy
            · rw [enqueue_asks, if_pos hside] at hap
              exact Or.inl hap
            · rw [enqueue_asks, if_neg hside] at hap
              have := (((insertAskLevel_orders_perm o₁.price_ o₁ s.asks_).map
                (fun o₀ => (o₀.orderId_, o₀.price_))).mem_iff).mp hap
              rw [List.map_cons] at this
              rcases List.mem_cons.mp this with h1 | h1
              · exact Or.inr h1
              · exact Or.inl h1

theorem cancel_NoFAK {s : OrderBookState} (h : NoFAK s) (i : Nat) :
    NoFAK (OrderBook.CancelOrderInternals s i) :=
  fun o ho => h o ((cancel_allOrders_sublist s i).subset ho)

theorem cancel_BookInv {s : OrderBookState} (hinv : BookInv s) (i : Nat) :
    BookInv (OrderBook.CancelOrderInternals s i) :=
  ⟨cancel_BookWF hinv.1 i, cancel_NotCrossed hinv.1 hinv.2.1 i, cancel_NoFAK hinv.2.2 i⟩

theorem modifyOrder_main {s s' : OrderBookState} {m : OrderModify} {tr : List Trade}
    (hinv : BookInv s) (hrun : OrderBook.ModifyOrder s m = .ok (tr, s')) : BookInv s' := by
  rw [OrderBook.ModifyOrder] at hrun
  rcases hlk : lookupOrders s.orders_ m.orderId_ with _ | o₀
  · rw [hlk] at hrun
    dsimp only at hrun
    obtain ⟨-, rfl⟩ : ([] : List Trade) = tr ∧ s = s' := by
      simp only [Except.ok.injEq, Prod.mk.injEq] at hrun
      exact hrun
    exact hinv
  · rw [hlk] at hrun
    dsimp only at hrun
    exact (addOrder_main (cancel_BookInv hinv m.orderId_) hrun).1

/-- Every state reachable from the empty book through the public
operations satisfies the book invariant: well-formed side maps, an
uncrossed book, and no resting `FillAndKill` order. -/
theorem reachable_inv {s : OrderBookState} (h : Reachable s) : BookInv s := by
  induction h with
  | empty => exact emptyBook_BookInv
  | add hr hadd ih => exact (addOrder_main ih hadd).1
  | cancel hr ih => exact cancel_BookInv ih _
  | modify hr hmod ih => exact modifyOrder_main ih hmod

/-! ## The claims -/

/-- C1: REFUTED (code bug).  The spec claims that for every price in the
level-data index `data_` the stored count and quantity match the live
orders resting at that price, the entry being removed when the count
reaches 0.  Counterexample: add one Buy GoodTillCancel order (id 1, price
100, quantity 5) to the empty book and cancel it.
`OrderBook::CancelOrderInternals` never calls `OnOrderCancelled`, so the
book reaches a state with no live order anywhere while `data_` still
records count 1 and quantity 5 at price 100. -/
theorem C1_stale_level_data :
    ∃ s' : OrderBookState, Reachable s' ∧ allOrders s' = [] ∧ ordersAtPrice s' 100 = 0 ∧
      lookupData s'.data_ 100 = some ⟨5, 1⟩ := by
  refine ⟨⟨[(100, ⟨5, 1⟩)], [], [], []⟩, ?_, rfl, rfl, rfl⟩
  exact @Reachable.cancel
    ⟨[(100, ⟨5, 1⟩)], [], [(100, [⟨OrderType.GoodTillCancel, 1, Side.Buy, 100, 5, 5⟩])],
      [(1, ⟨OrderType.GoodTillCancel, 1, Side.Buy, 100, 5, 5⟩)]⟩ 1
    (@Reachable.add emptyBook ⟨OrderType.GoodTillCancel, 1, Side.Buy, 100, 5, 5⟩ []
      ⟨[(100, ⟨5, 1⟩)], [], [(100, [⟨OrderType.GoodTillCancel, 1, Side.Buy, 100, 5, 5⟩])],
        [(1, ⟨OrderType.GoodTillCancel, 1, Side.Buy, 100, 5, 5⟩)]⟩
      Reachable.empty rfl)

/-- C2: REFUTED (code bug).  The spec claims a FillOrKill order whose
required quantity exceeds the truly available opposite-side quantity by
one unit is rejected silently (empty trades, book unchanged).
Counterexample: Sell 1\@100x5, Buy 2\@100x5 (they match and leave the
book empty), Sell 3\@100x1, then Buy FillOrKill 4\@100x2.  Only 1 unit is
really available, one short of the required 2, yet `CanFullyFill` reads
the stale `data_` aggregates (never decremented, because
`OnOrderMatched`/`OnOrderCancelled` are never called), accepts the order,
trades 1 unit and leaves the FillOrKill resting with remaining 1. -/
theorem C2_fok_accepted_without_liquidity :
    ∃ (s : OrderBookState) (o : Order), Reachable s ∧
      o.orderType_ = OrderType.FillOrKill ∧ o.side_ = Side.Buy ∧
      (∀ a ∈ askOrders s, a.price_ ≤ o.price_) ∧
      sumRemaining (askOrders s) + 1 = o.initialQuantity_ ∧
      ∃ tr s', OrderBook.AddOrder s o = .ok (tr, s') ∧ tr ≠ [] ∧ s' ≠ s := by
  refine ⟨⟨[(100, ⟨11, 3⟩)], [(100, [⟨OrderType.GoodTillCancel, 3, Side.Sell, 100, 1, 1⟩])],
      [], [(3, ⟨OrderType.GoodTillCancel, 3, Side.Sell, 100, 1, 1⟩)]⟩,
    ⟨OrderType.FillOrKill, 4, Side.Buy, 100, 2, 2⟩, ?_, rfl, rfl, by decide, rfl,
    [⟨⟨4, 100, 1⟩, ⟨3, 100, 1⟩⟩],
    ⟨[(100, ⟨13, 4⟩)], [], [(100, [⟨OrderType.FillOrKill, 4, Side.Buy, 100, 2, 1⟩])],
      [(4, ⟨OrderType.FillOrKill, 4, Side.Buy, 100, 2, 2⟩)]⟩, rfl, by decide, by decide⟩
  exact @Reachable.add
    ⟨[(100, ⟨10, 2⟩)], [], [], []⟩
    ⟨OrderType.GoodTillCancel, 3, Side.Sell, 100, 1, 1⟩ []
    ⟨[(100, ⟨11, 3⟩)], [(100, [⟨OrderType.GoodTillCancel, 3, Side.Sell, 100, 1, 1⟩])],
      [], [(3, ⟨OrderType.GoodTillCancel, 3, Side.Sell, 100, 1, 1⟩)]⟩
    (@Reachable.add
      ⟨[(100, ⟨5, 1⟩)], [(100, [⟨OrderType.GoodTillCancel, 1, Side.Sell, 100, 5, 5⟩])],
        [], [(1, ⟨OrderType.GoodTillCancel, 1, Side.Sell, 100, 5, 5⟩)]⟩
      ⟨OrderType.GoodTillCancel, 2, Side.Buy, 100, 5, 5⟩
      [⟨⟨2, 100, 5⟩, ⟨1, 100, 5⟩⟩]
      ⟨[(100, ⟨10, 2⟩)], [], [], []⟩
      (@Reachable.add emptyBook ⟨OrderType.GoodTillCancel, 1, Side.Sell, 100, 5, 5⟩ []
        ⟨[(100, ⟨5, 1⟩)], [(100, [⟨OrderType.GoodTillCancel, 1, Side.Sell, 100, 5, 5⟩])],
          [], [(1, ⟨OrderType.GoodTillCancel, 1, Side.Sell, 100, 5, 5⟩)]⟩
        Reachable.empty rfl) rfl) rfl

/-- C3: a FillAndKill order never rests.  After any successful `AddOrder`
from a reachable state, no order of type FillAndKill is present in either
side map: an unmatchable FAK is rejected before enqueue and a partially
filled FAK's residue is cancelled by the post-loop sweep. -/
theorem C3_fak_never_rests {s s' : OrderBookState} {o : Order} {tr : List Trade}
    (hr : Reachable s) (hrun : OrderBook.AddOrder s o = .ok (tr, s')) :
    ∀ o' ∈ allOrders s', o'.orderType_ ≠ OrderType.FillAndKill :=
  (addOrder_main (reachable_inv hr) hrun).1.2.2

/-- C3 witness: ask side 1\@100x5 and 2\@105x5; a FillAndKill Buy 3\@100x8
matches 5 units at 100 and its residue is cancelled; the surviving resting
order (id 2) is not a FillAndKill. -/
theorem C3_fak_never_rests_witness :
    (⟨OrderType.GoodTillCancel, 2, Side.Sell, 105, 5, 5⟩ : Order).orderType_ ≠
      OrderType.FillAndKill :=
  @C3_fak_never_rests
    ⟨[(100, ⟨5, 1⟩), (105, ⟨5, 1⟩)],
      [(100, [⟨OrderType.GoodTillCancel, 1, Side.Sell, 100, 5, 5⟩]),
        (105, [⟨OrderType.GoodTillCancel, 2, Side.Sell, 105, 5, 5⟩])],
      [], [(2, ⟨OrderType.GoodTillCancel, 2, Side.Sell, 105, 5, 5⟩),
        (1, ⟨OrderType.GoodTillCancel, 1, Side.Sell, 100, 5, 5⟩)]⟩
    ⟨[(100, ⟨13, 2⟩), (105, ⟨5, 1⟩)],
      [(105, [⟨OrderType.GoodTillCancel, 2, Side.Sell, 105, 5, 5⟩])],
      [], [(2, ⟨OrderType.GoodTillCancel, 2, Side.Sell, 105, 5, 5⟩)]⟩
    ⟨OrderType.FillAndKill, 3, Side.Buy, 100, 8, 8⟩
    [⟨⟨3, 100, 5⟩, ⟨1, 100, 5⟩⟩]
    (@Reachable.add
      ⟨[(100, ⟨5, 1⟩)], [(100, [⟨OrderType.GoodTillCancel, 1, Side.Sell, 100, 5, 5⟩])],
        [], [(1, ⟨OrderType.GoodTillCancel, 1, Side.Sell, 100, 5, 5⟩)]⟩
      ⟨OrderType.GoodTillCancel, 2, Side.Sell, 105, 5, 5⟩ []
      ⟨[(100, ⟨5, 1⟩), (105, ⟨5, 1⟩)],
        [(100, [⟨OrderType.GoodTillCancel, 1, Side.Sell, 100, 5, 5⟩]),
          (105, [⟨OrderType.GoodTillCancel, 2, Side.Sell, 105, 5, 5⟩])],
        [], [(2, ⟨OrderType.GoodTillCancel, 2, Side.Sell, 105, 5, 5⟩),
          (1, ⟨OrderType.GoodTillCancel, 1, Side.Sell, 100, 5, 5⟩)]⟩
      (@Reachable.add emptyBook ⟨OrderType.GoodTillCancel, 1, Side.Sell, 100, 5, 5⟩ []
        ⟨[(100, ⟨5, 1⟩)], [(100, [⟨OrderType.GoodTillCancel, 1, Side.Sell, 100, 5, 5⟩])],
          [], [(1, ⟨OrderType.GoodTillCancel, 1, Side.Sell, 100, 5, 5⟩)]⟩
        Reachable.empty rfl) rfl)
    rfl
    ⟨OrderType.GoodTillCancel, 2, Side.Sell, 105, 5, 5⟩ (by decide)

/-- C4: the book is never crossed in a reachable state: whenever both
side maps are non-empty, the best (first) bid price is strictly below the
best (first) ask price. -/
theorem C4_never_crossed {s : OrderBookState} (hr : Reachable s) : NotCrossed s :=
  (reachable_inv hr).2.1

/-- C4 witness: after adding Buy 1\@90x5 and Sell 2\@110x5 both sides are
non-empty and the best bid 90 is below the best ask 110. -/
theorem C4_never_crossed_witness : (90 : Int) < 110 :=
  C4_never_crossed
    (@Reachable.add
      ⟨[(90, ⟨5, 1⟩)], [], [(90, [⟨OrderType.GoodTillCancel, 1, Side.Buy, 90, 5, 5⟩])],
        [(1, ⟨OrderType.GoodTillCancel, 1, Side.Buy, 90, 5, 5⟩)]⟩
      ⟨OrderType.GoodTillCancel, 2, Side.Sell, 110, 5, 5⟩ []
      ⟨[(90, ⟨5, 1⟩), (110, ⟨5, 1⟩)],
        [(110, [⟨OrderType.GoodTillCancel, 2, Side.Sell, 110, 5, 5⟩])],
        [(90, [⟨OrderType.GoodTillCancel, 1, Side.Buy, 90, 5, 5⟩])],
        [(2, ⟨OrderType.GoodTillCancel, 2, Side.Sell, 110, 5, 5⟩),
          (1, ⟨OrderType.GoodTillCancel, 1, Side.Buy, 90, 5, 5⟩)]⟩
      (@Reachable.add emptyBook ⟨OrderType.GoodTillCancel, 1, Side.Buy, 90, 5, 5⟩ []
        ⟨[(90, ⟨5, 1⟩)], [], [(90, [⟨OrderType.GoodTillCancel, 1, Side.Buy, 90, 5, 5⟩])],
          [(1, ⟨OrderType.GoodTillCancel, 1, Side.Buy, 90, 5, 5⟩)]⟩
        Reachable.empty rfl) rfl)
    90 [⟨OrderType.GoodTillCancel, 1, Side.Buy, 90, 5, 5⟩]
    110 [⟨OrderType.GoodTillCancel, 2, Side.Sell, 110, 5, 5⟩] rfl rfl

/-- C5: strict price-time priority, on the spec's concrete scenario.
From the empty book: Add Buy GTC 1\@100x5, Add Buy GTC 2\@100x5, Add Sell
GTC 3\@100x7.  The third add emits exactly the trades (1\@100x5) then
(2\@100x2) in that order; afterwards id 1 and id 3 are gone and id 2
rests with remaining quantity 3. -/
theorem C5_fifo_price_time :
    ∃ s₁ s₂ s₃ : OrderBookState,
      OrderBook.AddOrder emptyBook ⟨OrderType.GoodTillCancel, 1, Side.Buy, 100, 5, 5⟩ =
        .ok ([], s₁) ∧
      OrderBook.AddOrder s₁ ⟨OrderType.GoodTillCancel, 2, Side.Buy, 100, 5, 5⟩ =
        .ok ([], s₂) ∧
      OrderBook.AddOrder s₂ ⟨OrderType.GoodTillCancel, 3, Side.Sell, 100, 7, 7⟩ =
        .ok ([⟨⟨1, 100, 5⟩, ⟨3, 100, 5⟩⟩, ⟨⟨2, 100, 2⟩, ⟨3, 100, 2⟩⟩], s₃) ∧
      s₃.bids_ = [(100, [⟨OrderType.GoodTillCancel, 2, Side.Buy, 100, 5, 3⟩])] ∧
      s₃.asks_ = [] ∧
      containsOrderId s₃.orders_ 1 = false ∧
      containsOrderId s₃.orders_ 3 = false := by
  refine ⟨⟨[(100, ⟨5, 1⟩)], [], [(100, [⟨OrderType.GoodTillCancel, 1, Side.Buy, 100, 5, 5⟩])],
      [(1, ⟨OrderType.GoodTillCancel, 1, Side.Buy, 100, 5, 5⟩)]⟩,
    ⟨[(100, ⟨10, 2⟩)], [],
      [(100, [⟨OrderType.GoodTillCancel, 1, Side.Buy, 100, 5, 5⟩,
        ⟨OrderType.GoodTillCancel, 2, Side.Buy, 100, 5, 5⟩])],
      [(2, ⟨OrderType.GoodTillCancel, 2, Side.Buy, 100, 5, 5⟩),
        (1, ⟨OrderType.GoodTillCancel, 1, Side.Buy, 100, 5, 5⟩)]⟩,
    ⟨[(100, ⟨17, 3⟩)], [], [(100, [⟨OrderType.GoodTillCancel, 2, Side.Buy, 100, 5, 3⟩])],
      [(2, ⟨OrderType.GoodTillCancel, 2, Side.Buy, 100, 5, 5⟩)]⟩,
    rfl, rfl, rfl, rfl, rfl, rfl, rfl⟩

/-- C6: every trade leg records the matched order's own id together with
that order's own limit price — either an order that was already resting
on that side when the add began, or the incoming order itself after the
Market-order rewrite (so for a rewritten Market order, the price it was
rewritten to); no midpoint or other price appears. -/
theorem C6_trade_prices {s s' : OrderBookState} {o : Order} {tr : List Trade}
    (hr : Reachable s) (hrun : OrderBook.AddOrder s o = .ok (tr, s')) :
    ∀ t ∈ tr, ∃ o₁, marketAdjust s o = some o₁ ∧
      ((t.bidTrade_.orderId_, t.bidTrade_.price_) ∈
          (levelOrders s.bids_).map (fun o₀ => (o₀.orderId_, o₀.price_)) ∨
        (t.bidTrade_.orderId_, t.bidTrade_.price_) = (o₁.orderId_, o₁.price_)) ∧
      ((t.askTrade_.orderId_, t.askTrade_.price_) ∈
          (levelOrders s.asks_).map (fun o₀ => (o₀.orderId_, o₀.price_)) ∨
        (t.askTrade_.orderId_, t.askTrade_.price_) = (o₁.orderId_, o₁.price_)) :=
  (addOrder_main (reachable_inv hr) hrun).2

/-- C6 witness: in the FIFO scenario's third add (Sell 3\@100x7 against
resting Buy 1 and Buy 2 at 100), the first trade's bid leg (1, 100) comes
from the resting bid order 1 and its ask leg (3, 100) from the incoming
order itself. -/
theorem C6_trade_prices_witness :
    ∃ o₁, marketAdjust
        ⟨[(100, ⟨10, 2⟩)], [],
          [(100, [⟨OrderType.GoodTillCancel, 1, Side.Buy, 100, 5, 5⟩,
            ⟨OrderType.GoodTillCancel, 2, Side.Buy, 100, 5, 5⟩])],
          [(2, ⟨OrderType.GoodTillCancel, 2, Side.Buy, 100, 5, 5⟩),
            (1, ⟨OrderType.GoodTillCancel, 1, Side.Buy, 100, 5, 5⟩)]⟩
        ⟨OrderType.GoodTillCancel, 3, Side.Sell, 100, 7, 7⟩ = some o₁ ∧
      (((1 : Nat), (100 : Int)) ∈
          (levelOrders [(100, [⟨OrderType.GoodTillCancel, 1, Side.Buy, 100, 5, 5⟩,
            ⟨OrderType.GoodTillCancel, 2, Side.Buy, 100, 5, 5⟩])]).map
            (fun o₀ => (o₀.orderId_, o₀.price_)) ∨
        ((1 : Nat), (100 : Int)) = (o₁.orderId_, o₁.price_)) ∧
      (((3 : Nat), (100 : Int)) ∈
          (levelOrders ([] : List (Int × Level))).map (fun o₀ => (o₀.orderId_, o₀.price_)) ∨
        ((3 : Nat), (100 : Int)) = (o₁.orderId_, o₁.price_)) :=
  @C6_trade_prices
    ⟨[(100, ⟨10, 2⟩)], [],
      [(100, [⟨OrderType.GoodTillCancel, 1, Side.Buy, 100, 5, 5⟩,
        ⟨OrderType.GoodTillCancel, 2, Side.Buy, 100, 5, 5⟩])],
      [(2, ⟨OrderType.GoodTillCancel, 2, Side.Buy, 100, 5, 5⟩),
        (1, ⟨OrderType.GoodTillCancel, 1, Side.Buy, 100, 5, 5⟩)]⟩
    ⟨[(100, ⟨17, 3⟩)], [], [(100, [⟨OrderType.GoodTillCancel, 2, Side.Buy, 100, 5, 3⟩])],
      [(2, ⟨OrderType.GoodTillCancel, 2, Side.Buy, 100, 5, 5⟩)]⟩
    ⟨OrderType.GoodTillCancel, 3, Side.Sell, 100, 7, 7⟩
    [⟨⟨1, 100, 5⟩, ⟨3, 100, 5⟩⟩, ⟨⟨2, 100, 2⟩, ⟨3, 100, 2⟩⟩]
    (@Reachable.add
      ⟨[(100, ⟨5, 1⟩)], [], [(100, [⟨OrderType.GoodTillCancel, 1, Side.Buy, 100, 5, 5⟩])],
        [(1, ⟨OrderType.GoodTillCancel, 1, Side.Buy, 100, 5, 5⟩)]⟩
      ⟨OrderType.GoodTillCancel, 2, Side.Buy, 100, 5, 5⟩ []
      ⟨[(100, ⟨10, 2⟩)], [],
        [(100, [⟨OrderType.GoodTillCancel, 1, Side.Buy, 100, 5, 5⟩,
          ⟨OrderType.GoodTillCancel, 2, Side.Buy, 100, 5, 5⟩])],
        [(2, ⟨OrderType.GoodTillCancel, 2, Side.Buy, 100, 5, 5⟩),
          (1, ⟨OrderType.GoodTillCancel, 1, Side.Buy, 100, 5, 5⟩)]⟩
      (@Reachable.add emptyBook ⟨OrderType.GoodTillCancel, 1, Side.Buy, 100, 5, 5⟩ []
        ⟨[(100, ⟨5, 1⟩)], [], [(100, [⟨OrderType.GoodTillCancel, 1, Side.Buy, 100, 5, 5⟩])],
          [(1, ⟨OrderType.GoodTillCancel, 1, Side.Buy, 100, 5, 5⟩)]⟩
        Reachable.empty rfl) rfl)
    rfl
    ⟨⟨1, 100, 5⟩, ⟨3, 100, 5⟩⟩ (by decide)

/-- C7: every silent-rejection path of `AddOrder` — duplicate id, Market
order with no opposite liquidity, FillAndKill that cannot match,
FillOrKill that `CanFullyFill` refuses — returns an empty trades list and
the entirely unchanged book state. -/
theorem C7_silent_rejection {s : OrderBookState} {o : Order}
    (h : containsOrderId s.orders_ o.orderId_ = true ∨
      (o.orderType_ = OrderType.Market ∧ ¬ (o.side_ = Side.Buy ∧ s.asks_ ≠ []) ∧
        ¬ (o.side_ = Side.Sell ∧ s.bids_ ≠ [])) ∨
      (o.orderType_ = OrderType.FillAndKill ∧
        OrderBook.CanMatch s o.side_ o.price_ = false) ∨
      (o.orderType_ = OrderType.FillOrKill ∧
        OrderBook.CanFullyFill s o.side_ o.price_ o.initialQuantity_ = false)) :
    OrderBook.AddOrder s o = .ok ([], s) := by
  rw [OrderBook.AddOrder]
  by_cases hdup : containsOrderId s.orders_ o.orderId_ = true
  · rw [if_pos hdup]
  · rw [if_neg hdup]
    rcases h with hd | ⟨hm, h1, h2⟩ | ⟨hty, hcm⟩ | ⟨hty, hcf⟩
    · exact absurd hd hdup
    · have hnone : marketAdjust s o = none := by
        rw [marketAdjust, if_pos hm, if_neg h1, if_neg h2]
      rw [hnone]
    · have hsome : marketAdjust s o = some o := by
        rw [marketAdjust,
          if_neg (by rw [hty]; exact fun hh => OrderType.noConfusion hh)]
      rw [hsome]
      dsimp only
      rw [if_pos ⟨hty, by rw [hcm]; exact Bool.false_ne_true⟩]
    · have hsome : marketAdjust s o = some o := by
        rw [marketAdjust,
          if_neg (by rw [hty]; exact fun hh => OrderType.noConfusion hh)]
      rw [hsome]
      dsimp only
      rw [if_neg (fun hh =>
        absurd hh.1 (by rw [hty]; exact fun h2 => OrderType.noConfusion h2))]
      rw [if_pos ⟨hty, by rw [hcf]; exact Bool.false_ne_true⟩]

/-- C7 witness: adding a second order with the already-used id 1 returns
empty trades and the book exactly as it was. -/
theorem C7_silent_rejection_witness :
    OrderBook.AddOrder
      ⟨[(100, ⟨5, 1⟩)], [], [(100, [⟨OrderType.GoodTillCancel, 1, Side.Buy, 100, 5, 5⟩])],
        [(1, ⟨OrderType.GoodTillCancel, 1, Side.Buy, 100, 5, 5⟩)]⟩
      ⟨OrderType.GoodTillCancel, 1, Side.Buy, 101, 3, 3⟩ =
      .ok ([], ⟨[(100, ⟨5, 1⟩)], [],
        [(100, [⟨OrderType.GoodTillCancel, 1, Side.Buy, 100, 5, 5⟩])],
        [(1, ⟨OrderType.GoodTillCancel, 1, Side.Buy, 100, 5, 5⟩)]⟩) :=
  C7_silent_rejection (Or.inl rfl)

/-- C8: `ModifyOrder` is exactly cancel-then-replace: for a live id it
cancels the old order and adds a fresh order with the same id, the
remembered type, and the descriptor's side, price and quantity, returning
that add's trades; for an unknown id it returns empty trades and the
unchanged book. -/
theorem C8_modify_is_cancel_replace (s : OrderBookState) (m : OrderModify) :
    OrderBook.ModifyOrder s m = ModifyAsCancelReplace s m := by
  rw [OrderBook.ModifyOrder, ModifyAsCancelReplace]
  rcases lookupOrders s.orders_ m.orderId_ with _ | ex
  · rfl
  · rfl

/-- C9: `Order::Fill(q)` fails with the overfill error exactly when q
exceeds the remaining quantity; otherwise it subtracts exactly q from the
remaining quantity and changes no other field, and it preserves
remaining ≤ initial. -/
theorem C9_fill_overfill (o : Order) (q : Nat) :
    (o.remainingQuantity_ < q →
      o.Fill q = .error "cannot be filled for more than its remaining quantity") ∧
    (q ≤ o.remainingQuantity_ →
      o.Fill q = .ok ⟨o.orderType_, o.orderId_, o.side_, o.price_, o.initialQuantity_,
        o.remainingQuantity_ - q⟩) ∧
    (∀ o', o.Fill q = .ok o' → o.remainingQuantity_ ≤ o.initialQuantity_ →
      o'.remainingQuantity_ ≤ o'.initialQuantity_) := by
  refine ⟨?_, ?_, ?_⟩
  · intro hlt
    rw [Order.Fill, if_pos hlt]
  · intro hle
    rw [Order.Fill, if_neg (Nat.not_lt.mpr hle)]
  · intro o' hok hle
    rw [Order.Fill] at hok
    by_cases hlt : o.remainingQuantity_ < q
    · rw [if_pos hlt] at hok
      exact Except.noConfusion hok
    · rw [if_neg hlt] at hok
      obtain rfl := Except.ok.inj hok
      simp only
      omega

/-- C9 witness: an order with remaining 5 rejects Fill(7) with the
overfill error and Fill(3) leaves remaining 2 with every other field
unchanged. -/
theorem C9_fill_overfill_witness :
    (⟨OrderType.GoodTillCancel, 7, Side.Buy, 50, 5, 5⟩ : Order).Fill 7 =
      .error "cannot be filled for more than its remaining quantity" ∧
    (⟨OrderType.GoodTillCancel, 7, Side.Buy, 50, 5, 5⟩ : Order).Fill 3 =
      .ok ⟨OrderType.GoodTillCancel, 7, Side.Buy, 50, 5, 2⟩ :=
  ⟨(C9_fill_overfill ⟨OrderType.GoodTillCancel, 7, Side.Buy, 50, 5, 5⟩ 7).1 (by decide),
    (C9_fill_overfill ⟨OrderType.GoodTillCancel, 7, Side.Buy, 50, 5, 5⟩ 3).2.1 (by decide)⟩

/-- C10: the overfill error is unreachable through the matching loop:
`MatchOrders`, `AddOrder` and `ModifyOrder` always return a successful
result on every input, so `Order::Fill`'s exception never propagates out
of them. -/
theorem C10_overfill_unreachable (s : OrderBookState) (o : Order) (m : OrderModify) :
    (∃ r, OrderBook.MatchOrders s = .ok r) ∧
    (∃ r, OrderBook.AddOrder s o = .ok r) ∧
    (∃ r, OrderBook.ModifyOrder s m = .ok r) :=
  ⟨MatchOrders_ok s, AddOrder_ok s o, ModifyOrder_ok s m⟩
